import Mathlib

/-!
Verification development for the `metalogistic` package
(`src/metalogistic/main.py`).

The Python code is shallowly embedded over exact rational arithmetic:

* floating point numbers are modelled as `ℚ`;
* `np.log` and `np.exp` are opaque foreign functions, modelled as
  parameters `L E : ℚ → ℚ` of every evaluation function (facts that need
  a property of the real logarithm take it as an explicit hypothesis,
  e.g. `∀ y, 1 < y → 0 < L y`);
* Python exceptions are modelled with `Except Err`;
* the SciPy optimizer and linear-algebra calls (`optimize.minimize`,
  `np.linalg.inv`, `optimize.brentq`) are foreign code; their outputs are
  supplied as oracle inputs (`Oracles`), while everything the repository
  itself computes is embedded;
* division follows numpy scalar semantics in that it never raises; it is
  modelled with Lean's total division on `ℚ`.
-/

/-- Kinds of Python exceptions raised by the embedded code paths. -/
inductive Err where
  /-- `KeyError`: a 1-indexed dictionary access `a[n]` (or
  `quantile_functions[term]` / `Y_ns[term]`) with a missing key. -/
  | keyErr
  /-- `TypeError`: a numeric coefficient applied as a function,
  as in `a[n](...)` on line 397. -/
  | callErr
  /-- `ValueError` raised by the validity checks of `densitySmallM`. -/
  | domainErr
  /-- `IndexError`: `cdf_xs[i]` out of range in the p→x mapping (line 45). -/
  | indexErr
  /-- The `ValueError` of the constructor's length check (line 60). -/
  | lenMismatchErr
  /-- `TypeError` from running the fit pipeline with missing input data. -/
  | typeErr
deriving DecidableEq, Repr

deriving instance DecidableEq for Except

/-- The boundedness tag computed in `__init__` (lines 27-34). -/
inductive Boundedness where
  | unbounded
  | lower
  | upper
  | bounded
deriving DecidableEq, Repr

/-- The data a `MetaLogistic` instance carries that the evaluation
methods (`_quantile`, `densitySmallM`) read: the a-vector, the term
count, and the bounds. -/
structure MetaLog where
  a_vector : List ℚ
  term : ℕ
  lbound : Option ℚ
  ubound : Option ℚ
deriving DecidableEq, Repr

/-- Derivation of `self.boundedness` from the bounds (lines 27-34);
`False` in the source is rendered as `.unbounded`. -/
def MetaLog.boundedness (m : MetaLog) : Boundedness :=
  match m.lbound, m.ubound with
  | none, none => .unbounded
  | none, some _ => .upper
  | some _, none => .lower
  | some _, some _ => .bounded

/-- The 1-indexed dictionary view `a = {i + 1: element for i, element in
enumerate(self.a_vector)}` (lines 324, 380); a missing index raises
`KeyError`. -/
def MetaLog.aget (m : MetaLog) (n : ℕ) : Except Err ℚ :=
  match m.a_vector.get? (n - 1) with
  | some v => .ok v
  | none => .error .keyErr

/-- Python's `x ** k` for a non-negative integral exponent, as repeated
multiplication. -/
def qpow (a : ℚ) : ℕ → ℚ
  | 0 => 1
  | k + 1 => qpow a k * a

/-- `np.abs`. -/
def qabs (r : ℚ) : ℚ :=
  if r < 0 then -r else r

/-- `np.sum` over a list of rationals. -/
def qsum : List ℚ → ℚ
  | [] => 0
  | x :: rest => x + qsum rest

/-- The `for n in range(5, term + 1)` loop of `_quantile`
(lines 337-342): odd `n` adds `a[n] * p05 ** ((n-1)/2)`, even `n` adds
`a[n] * p05 ** (n/2 - 1) * ln_p_term`.  `acc` is
`quantile_functions[n-1]`, and `fuel` counts the iterations left in
`range(n, term + 1)`. -/
def quantLoop (m : MetaLog) (p05 lnp : ℚ) : ℕ → ℕ → ℚ → Except Err ℚ
  | 0, _, acc => .ok acc
  | fuel + 1, n, acc => do
    let an ← m.aget n
    let acc2 := if n % 2 = 1 then acc + an * qpow p05 ((n - 1) / 2)
                else acc + an * qpow p05 (n / 2 - 1) * lnp
    quantLoop m p05 lnp fuel (n + 1) acc2

/-- The unbounded metalog quantile recurrence of `_quantile`
(lines 321-344).  The source computes `quantile_functions[2]` and
`quantile_functions[3]` unconditionally (lines 331-332), guards
`quantile_functions[4]` by `term > 3`, runs the loop for `term > 4`, and
finally looks up `quantile_functions[self.term]` — which raises
`KeyError` when `term ≤ 1`. -/
def unboundedQuantile (L : ℚ → ℚ) (m : MetaLog) (p : ℚ) : Except Err ℚ := do
  let a1 ← m.aget 1
  let a2 ← m.aget 2
  let lnp := L (p / (1 - p))
  let p05 := p - 1/2
  let q2 := a1 + a2 * lnp
  let a3 ← m.aget 3
  let q3 := q2 + a3 * p05 * lnp
  if m.term ≤ 1 then .error .keyErr
  else if m.term = 2 then .ok q2
  else if m.term = 3 then .ok q3
  else do
    let a4 ← m.aget 4
    let q4 := q3 + a4 * p05
    quantLoop m p05 lnp (m.term - 4) 5 q4

/-- The interior (`0 < p < 1`) part of `_quantile`, including the
inverse bounds transform of lines 346-352 applied when the override
flag is off. -/
def quantileInterior (L E : ℚ → ℚ) (m : MetaLog) (p : ℚ) : Except Err ℚ := do
  let q ← unboundedQuantile L m p
  match m.boundedness with
  | .unbounded => .ok q
  | .lower => .ok (m.lbound.getD 0 + E q)
  | .upper => .ok (m.ubound.getD 0 - E (-q))
  | .bounded => .ok ((m.lbound.getD 0 + m.ubound.getD 0 * E q) / (1 + E q))

/-- Extended value returned by the quantile function: `-np.inf`, a
finite value, or `np.inf`. -/
inductive XVal where
  | neginf
  | fin (v : ℚ)
  | posinf
deriving DecidableEq, Repr

/-- The `≤` comparison on extended quantile values. -/
def xvalLe : XVal → XVal → Bool
  | .neginf, _ => true
  | _, .posinf => true
  | .fin a, .fin b => decide (a ≤ b)
  | _, _ => false

/-- Embedding of `_quantile` (lines 298-354): boundary handling for
`p ≤ 0` and `p ≥ 1` (lines 309-319), then the interior recurrence and
inverse bounds transform. -/
def mlQuantile (L E : ℚ → ℚ) (m : MetaLog) (p : ℚ)
    (force_unbounded : Bool) : Except Err XVal :=
  if p ≤ 0 then
    if (m.boundedness = .lower ∨ m.boundedness = .bounded) ∧ force_unbounded = false then
      .ok (.fin (m.lbound.getD 0))
    else .ok .neginf
  else if 1 ≤ p then
    if (m.boundedness = .upper ∨ m.boundedness = .bounded) ∧ force_unbounded = false then
      .ok (.fin (m.ubound.getD 0))
    else .ok .posinf
  else if force_unbounded then (unboundedQuantile L m p).map .fin
  else (quantileInterior L E m p).map .fin

/-- The `for n in range(5, term + 1)` loop of `densitySmallM`
(lines 392-399).  Odd `n` (line 394) adds
`a[n]*((n-1)/2)*p05_term**((n-3)/2)` to the reciprocal density.  Even
`n` (line 397) reads `a[n]` and then *applies it as a function* to the
bracketed expression — `a[n](p05_term**(n/2-1)/p1p_term + ...)` — since
the multiplication operator is missing in the source; this raises
`TypeError` because a numpy float is not callable. -/
def densLoop (m : MetaLog) (p05 p1p lnp : ℚ) : ℕ → ℕ → ℚ → Except Err ℚ
  | 0, _, acc => .ok acc
  | fuel + 1, n, acc => do
    let _an ← m.aget n
    if n % 2 = 1 then
      densLoop m p05 p1p lnp fuel (n + 1)
        (1 / (1/acc + _an * (((n : ℚ) - 1)/2) * qpow p05 ((n - 3) / 2)))
    else
      .error .callErr

/-- The reciprocal density recurrence of `densitySmallM`
(lines 375-401): `density_functions[2]` and `density_functions[3]` are
computed unconditionally (lines 386-387, so `a[3]` is read even for
`term = 2`), `density_functions[4]` is guarded by `term > 3`, the loop
runs for `term > 4`, and `density_functions[self.term]` raises
`KeyError` for `term ≤ 1`. -/
def densityBase (L : ℚ → ℚ) (m : MetaLog) (p : ℚ) : Except Err ℚ := do
  let lnp := L (p / (1 - p))
  let p05 := p - 1/2
  let p1p := p * (1 - p)
  let a2 ← m.aget 2
  let d2 := p1p / a2
  let a3 ← m.aget 3
  let d3 := 1 / (1/d2 + a3 * (p05/p1p + lnp))
  if m.term ≤ 1 then .error .keyErr
  else if m.term = 2 then .ok d2
  else if m.term = 3 then .ok d3
  else do
    let a4 ← m.aget 4
    let d4 := 1 / (1/d3 + a4)
    densLoop m p05 p1p lnp (m.term - 4) 5 d4

/-- Embedding of `densitySmallM` on a scalar argument (lines 356-426):
validity checks (lines 368-371), reciprocal recurrence, then the
boundedness cases of lines 402-424.  For interior `p` the semi-bounded
and bounded cases use `self._quantile(p, force_unbounded=True)`, which
for `0 < p < 1` is exactly `unboundedQuantile`. -/
def densitySmallM (L E : ℚ → ℚ) (m : MetaLog) (p : ℚ)
    (force_unbounded : Bool) : Except Err ℚ :=
  if ¬ (0 ≤ p ∧ p ≤ 1) then .error .domainErr
  else if m.boundedness = .unbounded ∧ (p = 0 ∨ p = 1) then .error .domainErr
  else do
    let dbase ← densityBase L m p
    if force_unbounded then .ok dbase
    else
      match m.boundedness with
      | .unbounded => .ok dbase
      | .lower =>
        if 0 < p ∧ p < 1 then do
          let q ← unboundedQuantile L m p
          .ok (dbase * E (-q))
        else if p = 0 then .ok 0
        else .error .domainErr
      | .upper =>
        if 0 < p ∧ p < 1 then do
          let q ← unboundedQuantile L m p
          .ok (dbase * E q)
        else if p = 1 then .ok 0
        else .error .domainErr
      | .bounded =>
        if 0 < p ∧ p < 1 then do
          let q ← unboundedQuantile L m p
          let xu := E q
          .ok (dbase * qpow (1 + xu) 2 / ((m.ubound.getD 0 - m.lbound.getD 0) * xu))
        else .ok 0

/-- Elementwise evaluation of a list argument, as in
`[self.densitySmallM(i) for i in cumulative_prob]` (line 366) and
`[self._ppf(i) for i in probability]` (line 456): the first raised
exception aborts the comprehension. -/
def mapME (f : ℚ → Except Err ℚ) : List ℚ → Except Err (List ℚ)
  | [] => .ok []
  | x :: rest => do
    let y ← f x
    let ys ← mapME f rest
    .ok (y :: ys)

/-- The `k`-th point of `np.linspace(lo, hi, n)`. -/
def linspacePoint (lo hi : ℚ) (n k : ℕ) : ℚ :=
  lo + (k : ℚ) * ((hi - lo) / ((n : ℚ) - 1))

/-- `np.linspace(lo, hi, n)` as a list of exact rationals. -/
def linspaceGrid (lo hi : ℚ) (n : ℕ) : List ℚ :=
  (List.range n).map (linspacePoint lo hi n)

/-- `self.quantile(ps_to_check)` over the check grid.  The grid points
lie in `[0.001, 0.999] ⊂ (0, 1)`, where `_quantile` takes its interior
branch, so each entry is the (finite) value of `quantileInterior`. -/
def quantileGridQ (L E : ℚ → ℚ) (m : MetaLog) (n : ℕ) : Except Err (List ℚ) :=
  mapME (fun p => quantileInterior L E m p) (linspaceGrid (1/1000) (999/1000) n)

/-- `self.densitySmallM(ps_to_check)` over the check grid (elementwise,
with the override flag off, as in line 366). -/
def densityGrid (L E : ℚ → ℚ) (m : MetaLog) (n : ℕ) : Except Err (List ℚ) :=
  mapME (fun p => densitySmallM L E m p false) (linspaceGrid (1/1000) (999/1000) n)

/-- The accumulation loop of
`infeasibilityScoreQuantileSumNegativeIncrements` (lines 210-217):
`prev` starts at `-np.inf` (modelled by `none`, so the first element
never contributes, since `x - (-inf)` is `+inf` for the finite grid
values); every negative consecutive difference `d` adds `log(1 - d)`. -/
def sumNegGo (L : ℚ → ℚ) : Option ℚ → List ℚ → ℚ
  | _, [] => 0
  | none, x :: rest => sumNegGo L (some x) rest
  | some prev, x :: rest =>
      (if x - prev < 0 then L (1 - (x - prev)) else 0) + sumNegGo L (some x) rest

/-- `infeasibilityScoreQuantileSumNegativeIncrements` (lines 205-218):
200 grid quantiles on `[0.001, 0.999]`, summing `log(1 - diff)` over
negative consecutive differences. -/
def infeasibilityScoreQuantileSumNegativeIncrements (L E : ℚ → ℚ)
    (m : MetaLog) : Except Err ℚ := do
  let xs ← quantileGridQ L E m 200
  .ok (sumNegGo L none xs)

/-- `infeasibilityScoreSmallMReciprocal` (lines 220-229): 100 grid
densities on `[0.001, 0.999]`; the score is the absolute value of the
sum of the negative reciprocal densities. -/
def infeasibilityScoreSmallMReciprocal (L E : ℚ → ℚ)
    (m : MetaLog) : Except Err ℚ := do
  let ds ← densityGrid L E m 100
  let rs := ds.map (fun d => 1 / d)
  .ok (qabs (qsum (rs.filter (fun r => decide (r < 0)))))

/-- The three feasibility strategies, dispatched by string comparison in
the source. -/
inductive Strategy where
  | QuantileMinimumIncrement
  | QuantileSumNegativeIncrements
  | SmallMReciprocal
deriving DecidableEq, Repr

/-- Values taken by `fit_method_used` when the source assigns it. -/
inductive FitUsed where
  | LLS
  | numeric
deriving DecidableEq, Repr

/-- Values assigned to `numeric_ls_solver_used` by
`fitNumericLeastSquares` (lines 177, 188). -/
inductive SolverTag where
  | Default
  | trustConstr
deriving DecidableEq, Repr

/-- The fields of a SciPy `OptimizeResult` that the source reads:
`x`, `fun` (here `fval`) and `constr_violation`. -/
structure SolverResult where
  x : List ℚ
  fval : ℚ
  constr_violation : ℚ
deriving DecidableEq, Repr

/-- Outputs of the foreign (SciPy / numpy.linalg) calls: the linear
least squares solution of `fitLinearLeastSquares`, the results of the
default and trust-constr constrained minimizers, and the minimized
finite-difference slope returned by `optimize.minimize` inside
`QuantileMinimumIncrement` (as a function of the candidate a-vector). -/
structure Oracles where
  lls : List ℚ
  defaultRes : SolverResult
  trustRes : SolverResult
  qmi : List ℚ → ℚ

/-- The instance attributes of a `MetaLogistic` object that the claims
observe.  For the three fit diagnostics, `none` means the attribute was
never assigned (reading it raises `AttributeError`); for
`numeric_ls_solver_used`, `none` is the Python `None` assigned on
line 39. -/
structure MLState where
  a_vector : List ℚ
  term : ℕ
  lbound : Option ℚ
  ubound : Option ℚ
  fit_method_used : Option FitUsed
  valid_distribution : Option Bool
  valid_distribution_violation : Option ℚ
  numeric_ls_solver_used : Option SolverTag
deriving DecidableEq, Repr

/-- The evaluation-relevant projection of the instance state. -/
def MLState.dist (st : MLState) : MetaLog :=
  { a_vector := st.a_vector, term := st.term,
    lbound := st.lbound, ubound := st.ubound }

/-- The raw infeasibility score used by `isFeasible` for each strategy.
`QuantileMinimumIncrement` (lines 239-251) first evaluates the quantile
on a 100-point grid (so any exception there propagates) and then
returns the externally minimized slope. -/
def strategyScore (L E : ℚ → ℚ) (orc : Oracles) (s : Strategy)
    (m : MetaLog) : Except Err ℚ :=
  match s with
  | .QuantileMinimumIncrement => do
      let _ ← quantileGridQ L E m 100
      .ok (orc.qmi m.a_vector)
  | .QuantileSumNegativeIncrements =>
      infeasibilityScoreQuantileSumNegativeIncrements L E m
  | .SmallMReciprocal =>
      infeasibilityScoreSmallMReciprocal L E m

/-- The boolean `isFeasible` derives from a strategy's raw score
(lines 99-119): for `QuantileMinimumIncrement` the result is valid when
the score is not negative, for the other two when it is exactly 0. -/
def scoreToBool (s : Strategy) (sc : ℚ) : Bool :=
  match s with
  | .QuantileMinimumIncrement => decide (0 ≤ sc)
  | _ => decide (sc = 0)

/-- `isFeasible` (lines 99-119): computes the strategy's score, stores
`valid_distribution_violation` and `valid_distribution` on the
instance, and returns the validity boolean.  For
`QuantileMinimumIncrement`, a non-negative score stores a violation of
`0`; the other strategies store the score itself. -/
def isFeasible (L E : ℚ → ℚ) (orc : Oracles) (s : Strategy)
    (st : MLState) : Except Err (MLState × Bool) :=
  match strategyScore L E orc s st.dist with
  | .error e => .error e
  | .ok sc =>
    match s with
    | .QuantileMinimumIncrement =>
        if sc < 0 then
          .ok ({ st with valid_distribution_violation := some sc,
                         valid_distribution := some false }, false)
        else
          .ok ({ st with valid_distribution_violation := some 0,
                         valid_distribution := some true }, true)
    | .QuantileSumNegativeIncrements =>
        .ok ({ st with valid_distribution_violation := some sc,
                       valid_distribution := some (decide (sc = 0)) },
             decide (sc = 0))
    | .SmallMReciprocal =>
        .ok ({ st with valid_distribution_violation := some sc,
                       valid_distribution := some (decide (sc = 0)) },
             decide (sc = 0))

/-- Observer: the validity boolean produced by a run of `isFeasible`
(`none` when the score computation raised). -/
def isFeasibleRun (L E : ℚ → ℚ) (orc : Oracles) (s : Strategy)
    (st : MLState) : Option Bool :=
  match isFeasible L E orc s st with
  | .ok (_, b) => some b
  | .error _ => none

/-- The candidate distribution built inside `fitNumericLeastSquares`'s
feasibility closures:
`MetaLogistic(a_vector=a_candidate, **bounds_kwargs)` — its term count
is the length of the candidate vector. -/
def candidateDist (lb ub : Option ℚ) (a : List ℚ) : MetaLog :=
  { a_vector := a, term := a.length, lbound := lb, ubound := ub }

/-- The strategy-specific `feasibilityBool` closure of
`fitNumericLeastSquares` (lines 154-167), evaluated on a candidate
a-vector. -/
def feasibilityBool (L E : ℚ → ℚ) (orc : Oracles) (s : Strategy)
    (lb ub : Option ℚ) (a : List ℚ) : Except Err Bool :=
  match s with
  | .SmallMReciprocal => do
      let sc ← infeasibilityScoreSmallMReciprocal L E (candidateDist lb ub a)
      .ok (decide (sc = 0))
  | .QuantileSumNegativeIncrements => do
      let sc ← infeasibilityScoreQuantileSumNegativeIncrements L E (candidateDist lb ub a)
      .ok (decide (sc = 0))
  | .QuantileMinimumIncrement => do
      let _ ← quantileGridQ L E (candidateDist lb ub a) 100
      .ok (decide (0 ≤ orc.qmi a))

/-- `fitNumericLeastSquares` (lines 132-198).  The two solver runs are
oracles; the embedded part is the escalation policy: record the default
solver, escalate when `optimize_results.fun > 0.01` or
`feasibilityBool` fails on its result (line 180, with Python's
short-circuit `or`), and after the trust-constr run keep the alternate
result only when `constr_violation == 0` and its objective is strictly
smaller (lines 190-194). -/
def fitNumericLeastSquares (L E : ℚ → ℚ) (orc : Oracles) (s : Strategy)
    (st : MLState) : Except Err MLState := do
  let defRes := orc.defaultRes
  let st1 := { st with numeric_ls_solver_used := some .Default }
  let escalate ←
    if (1 : ℚ)/100 < defRes.fval then pure true
    else do
      let b ← feasibilityBool L E orc s st.lbound st.ubound defRes.x
      pure (!b)
  if escalate then
    let alt := orc.trustRes
    let st2 := { st1 with numeric_ls_solver_used := some .trustConstr }
    let keep := if alt.constr_violation = 0 then
                  (if alt.fval < defRes.fval then alt else defRes)
                else defRes
    .ok { st2 with a_vector := keep.x }
  else
    .ok { st1 with a_vector := defRes.x }

/-- Whether `fit_method` restricts fitting to linear least squares; the
source only compares it against the string `'LLS'` (line 82). -/
inductive FitMethodParam where
  | unset
  | LLS
deriving DecidableEq, Repr

/-- The recognized constructor arguments (lines 12, 86-92 of the spec's
interface list). -/
structure Params where
  cdf_ps : Option (List ℚ)
  cdf_xs : Option (List ℚ)
  term : Option ℕ
  fit_method : FitMethodParam
  lbound : Option ℚ
  ubound : Option ℚ
  a_vector : Option (List ℚ)
  feasibility_method : Strategy

/-- The instance state right after the attribute initialisation of
lines 27-48: bounds stored, `numeric_ls_solver_used = None`, and the
three fit diagnostics not yet assigned. -/
def initState (P : Params) (a : List ℚ) (t : ℕ) : MLState :=
  { a_vector := a, term := t, lbound := P.lbound, ubound := P.ubound,
    fit_method_used := none, valid_distribution := none,
    valid_distribution_violation := none, numeric_ls_solver_used := none }

/-- The guard of the constructor's length check (line 59):
`if len(cdf_ps) != len(cdf_ps)` — it compares the length of `cdf_ps`
with itself, never with `cdf_xs`. -/
def lengthMismatch (ps _xs : List ℚ) : Bool :=
  ps.length != ps.length

/-- The state of the linear least squares fit: the oracle a-vector with
the instance's term count (lines 68-72). -/
def llsState (orc : Oracles) (P : Params) (ps : List ℚ) : MLState :=
  initState P orc.lls (P.term.getD ps.length)

/-- Embedding of `__init__` (lines 12-97).  In order: the p→x mapping of
line 45 (which raises `IndexError` when `cdf_xs` is shorter than
`cdf_ps`), the direct a-vector path of lines 51-57 (which returns
without touching the fit diagnostics), the self-comparing length check
of line 59, the term default, the Y-matrix construction (whose final
`Y_ns[self.term]` lookup raises `KeyError` for `term ≤ 1`; the linear
algebra itself is the `lls` oracle), `isFeasible` on the linear fit,
the branch of lines 74-93, and the final `isFeasible` call of
line 95. -/
def construct (L E : ℚ → ℚ) (orc : Oracles) (P : Params) :
    Except Err MLState := do
  let _ ← (match P.cdf_ps, P.cdf_xs with
    | some ps, some xs =>
        if xs.length < ps.length then Except.error Err.indexErr else .ok ()
    | _, _ => .ok ())
  match P.a_vector with
  | some a => .ok (initState P a (P.term.getD a.length))
  | none =>
    match P.cdf_ps, P.cdf_xs with
    | some ps, some xs =>
      if lengthMismatch ps xs then .error .lenMismatchErr
      else
        let t := P.term.getD ps.length
        if t ≤ 1 then .error .keyErr
        else do
          let st1 := llsState orc P ps
          let res ← isFeasible L E orc P.feasibility_method st1
          let st3 ←
            if res.2 then
              .ok { res.1 with fit_method_used := some .LLS,
                               valid_distribution := some true }
            else if P.fit_method ≠ .LLS then
              fitNumericLeastSquares L E orc P.feasibility_method
                { res.1 with fit_method_used := some .numeric }
            else
              .ok { res.1 with valid_distribution := some false }
          let res4 ← isFeasible L E orc P.feasibility_method st3
          .ok res4.1
    | _, _ => .error .typeErr

/-! ### Concrete instances used by witnesses and counterexamples -/

/-- A concrete stand-in for `np.log` in closed evaluations; it has the
property of the real logarithm that the score arguments need
(`1 < y → 0 < logW y`). -/
def logW : ℚ → ℚ := fun y => y - 1

/-- A concrete stand-in for `np.exp` in closed evaluations. -/
def expW : ℚ → ℚ := fun y => y + 1

/-- A default oracle bundle for paths that do not consult the solvers. -/
def orcW : Oracles :=
  { lls := [], defaultRes := ⟨[], 0, 0⟩, trustRes := ⟨[], 0, 0⟩, qmi := fun _ => 1 }

/-- A 5-term unbounded instance whose `SmallMReciprocal` reciprocal
densities are `1/(p(1-p)) - 10`, negative over much of the grid:
infeasible. -/
def stC1 : MLState := ⟨[0, 1, 0, -10, 0], 5, none, none, none, none, none, none⟩

/-- Solver oracles where the default solver returns the infeasible
vector of `stC1` with objective 0, and trust-constr returns a feasible
vector (`constr_violation = 0`) with the larger objective 1. -/
def orcC1 : Oracles :=
  { lls := [], defaultRes := ⟨[0, 1, 0, -10, 0], 0, 37⟩,
    trustRes := ⟨[0, 1, 0, 0, 0], 1, 0⟩, qmi := fun _ => 0 }

/-- The state `fitNumericLeastSquares` produces from `stC1`/`orcC1`:
both solvers ran, and the (infeasible) default result was kept. -/
def stOutC1 : MLState := { stC1 with numeric_ls_solver_used := some .trustConstr }

/-- Claim C1 as stated: when both solvers ran, whichever result
satisfies the feasibility constraint exactly and has lower error is
kept; in particular if only one satisfies the constraint, that one is
kept regardless of error.  (The default result's constraint status is
`feasibilityBool` on its vector; the trust-constr result's is its
reported `constr_violation`.) -/
def C1Prop : Prop :=
  ∀ (L E : ℚ → ℚ) (orc : Oracles) (s : Strategy) (st stOut : MLState) (defSat : Bool),
    fitNumericLeastSquares L E orc s st = .ok stOut →
    stOut.numeric_ls_solver_used = some .trustConstr →
    feasibilityBool L E orc s st.lbound st.ubound orc.defaultRes.x = .ok defSat →
    ((orc.trustRes.constr_violation = 0 ∧ defSat = false →
        stOut.a_vector = orc.trustRes.x) ∧
     (orc.trustRes.constr_violation ≠ 0 ∧ defSat = true →
        stOut.a_vector = orc.defaultRes.x) ∧
     (orc.trustRes.constr_violation = 0 ∧ defSat = true →
        (orc.trustRes.fval < orc.defaultRes.fval → stOut.a_vector = orc.trustRes.x) ∧
        (orc.defaultRes.fval < orc.trustRes.fval → stOut.a_vector = orc.defaultRes.x)))

/-- A 5-term unbounded instance with `a = [0, 0, 0, 0.999, -1]`: its
quantile function is the polynomial `0.999·(p-½) - (p-½)²`, increasing
on the whole check grid `[0.001, 0.999]` (so the 200-point
`QuantileSumNegativeIncrements` score is 0) but strictly decreasing on
`(0.9995, 1)`. -/
def stC4 : MLState := ⟨[0, 0, 0, 999/1000, -1], 5, none, none, none, none, none, none⟩

/-- The state `isFeasible` returns for `stC4`: reported feasible. -/
def stC4r : MLState :=
  { stC4 with valid_distribution_violation := some 0, valid_distribution := some true }

/-- Claim C4 as stated: a distribution whose chosen feasibility strategy
reports it feasible has a monotone quantile function on all of
`[0, 1]`. -/
def C4Prop : Prop :=
  ∀ (L E : ℚ → ℚ) (orc : Oracles) (s : Strategy) (st st2 : MLState),
    isFeasible L E orc s st = .ok (st2, true) →
    ∀ p1 p2 : ℚ, 0 ≤ p1 → p1 < p2 → p2 ≤ 1 →
    ∀ v1 v2 : XVal, mlQuantile L E st.dist p1 false = .ok v1 →
      mlQuantile L E st.dist p2 false = .ok v2 → xvalLe v1 v2 = true

/-- Whether an `Except` computation succeeded (executable success
predicate for quantile evaluations). -/
def isOkB {α : Type} : Except Err α → Bool
  | .ok _ => true
  | .error _ => false

/-- Executable comparison of two successful quantile evaluations of the
same distribution: `true` when `quantile(p1) ≤ quantile(p2)` in the
extended order (vacuously `true` when either evaluation fails). -/
def quantPairLe (L E : ℚ → ℚ) (m : MetaLog) (p1 p2 : ℚ) : Bool :=
  match mlQuantile L E m p1 false, mlQuantile L E m p2 false with
  | .ok v1, .ok v2 => xvalLe v1 v2
  | _, _ => true

/-- A feasible 5-term unbounded instance (`quantile = p - ½` on the
grid, all increments positive). -/
def stW4 : MLState := ⟨[0, 0, 0, 1, 0], 5, none, none, none, none, none, none⟩

/-- The state `isFeasible` returns for `stW4`. -/
def stW4r : MLState :=
  { stW4 with valid_distribution_violation := some 0, valid_distribution := some true }

/-- A feasible 5-term unbounded instance for the C5 witness
(`a = [0, 1, 0, 0, 0]`). -/
def stC5 : MLState := ⟨[0, 1, 0, 0, 0], 5, none, none, none, none, none, none⟩

/-- The state all three `isFeasible` runs return for `stC5`. -/
def stC5r : MLState :=
  { stC5 with valid_distribution_violation := some 0, valid_distribution := some true }

/-- A lower-bounded instance for the C6 witness. -/
def mC6a : MetaLog := ⟨[], 0, some 5, none⟩

/-- An upper-bounded instance for the C6 witness. -/
def mC6b : MetaLog := ⟨[], 0, none, some 7⟩

/-- A 3-term lower-bounded instance for the C7 witness. -/
def mC7 : MetaLog := ⟨[0, 1, 0], 3, some 0, none⟩

/-- Claim C7 as stated: for every distribution and every scalar
probability, the density function raises exactly when the argument lies
outside `[0, 1]` or equals an endpoint on a side with no bound, every
raise is the domain-error `ValueError`, and at an endpoint on a bounded
side it returns exactly 0. -/
def C7Prop : Prop :=
  ∀ (L E : ℚ → ℚ) (m : MetaLog) (p : ℚ),
    ((∃ e, densitySmallM L E m p false = .error e) ↔
        (¬ (0 ≤ p ∧ p ≤ 1) ∨ (p = 0 ∧ m.lbound = none) ∨ (p = 1 ∧ m.ubound = none)))
    ∧ (∀ e, densitySmallM L E m p false = .error e → e = .domainErr)
    ∧ (p = 0 → m.lbound ≠ none → densitySmallM L E m p false = .ok 0)
    ∧ (p = 1 → m.ubound ≠ none → densitySmallM L E m p false = .ok 0)

/-- Constructor arguments with `fit_method = 'LLS'` for C8. -/
def PC8 : Params :=
  { cdf_ps := some [1/10, 3/10, 5/10, 7/10, 9/10], cdf_xs := some [1, 2, 3, 4, 5],
    term := none, fit_method := .LLS, lbound := none, ubound := none,
    a_vector := none, feasibility_method := .SmallMReciprocal }

/-- Oracles whose linear least squares result is the infeasible vector
`[0, 1, 0, -10, 0]`. -/
def orcC8 : Oracles :=
  { lls := [0, 1, 0, -10, 0], defaultRes := ⟨[], 0, 0⟩, trustRes := ⟨[], 0, 0⟩,
    qmi := fun _ => 0 }

/-- Constructor arguments that supply the a-vector directly (the path
of lines 51-57). -/
def PC9 : Params :=
  { cdf_ps := none, cdf_xs := none, term := none, fit_method := .unset,
    lbound := none, ubound := none, a_vector := some [1, 2, 3],
    feasibility_method := .SmallMReciprocal }

/-- Claim C9 as stated: after every construction path, the three fit
diagnostics are defined and readable. -/
def C9Prop : Prop :=
  ∀ (L E : ℚ → ℚ) (orc : Oracles) (P : Params) (st : MLState),
    construct L E orc P = .ok st →
    st.fit_method_used ≠ none ∧ st.valid_distribution ≠ none ∧
      st.valid_distribution_violation ≠ none

/-- Constructor arguments for the C9 witness: a sample-fitting run with
`fit_method` unset. -/
def PW9 : Params :=
  { cdf_ps := some [1/10, 3/10, 5/10, 7/10, 9/10], cdf_xs := some [1, 2, 3, 4, 5],
    term := none, fit_method := .unset, lbound := none, ubound := none,
    a_vector := none, feasibility_method := .SmallMReciprocal }

/-- Oracles whose linear least squares result is the feasible vector
`[0, 1, 0, 0, 0]`. -/
def orcW9 : Oracles :=
  { lls := [0, 1, 0, 0, 0], defaultRes := ⟨[], 0, 0⟩, trustRes := ⟨[], 0, 0⟩,
    qmi := fun _ => 0 }

/-- The state `construct` produces from `PW9`/`orcW9` (feasible linear
fit, `fit_method_used = 'LLS'`). -/
def stW9 : MLState :=
  { a_vector := [0, 1, 0, 0, 0], term := 5, lbound := none, ubound := none,
    fit_method_used := some .LLS, valid_distribution := some true,
    valid_distribution_violation := some 0, numeric_ls_solver_used := none }

set_option maxRecDepth 4000000

/-! ### Generalities about `Except` computations -/

theorem exceptErrBind {α β : Type} (e : Err) (f : α → Except Err β) :
    ((Except.error e : Except Err α) >>= f) = .error e := rfl

theorem exceptOkBind {α β : Type} (a : α) (f : α → Except Err β) :
    ((Except.ok a : Except Err α) >>= f) = f a := rfl

theorem exceptMapErrQ {α β : Type} (e : Err) (f : α → β) :
    (Except.error e : Except Err α).map f = .error e := rfl

theorem exceptMapOkQ {α β : Type} (a : α) (f : α → β) :
    (Except.ok a : Except Err α).map f = .ok (f a) := rfl

/-! ### Claims C2, C3, C6 -/

/-- Claim C2 (code bug): for `term > 4`, the even-`n` step of the
density recurrence is `a[n](...)` — the coefficient applied as a
function — so evaluating the density of a 6-term distribution at an
interior probability raises `TypeError` instead of succeeding with the
product `a[n]·(bracket)`.  Shown at `a = [1,1,1,1,1,1]`, `p = 1/2`, for
every log/exp. -/
theorem claim_C2 : ∀ L E : ℚ → ℚ,
    densitySmallM L E ⟨[1, 1, 1, 1, 1, 1], 6, none, none⟩ (1/2) false =
      .error .callErr := by
  intro L E
  with_unfolding_all rfl

/-- Claim C3 (code bug): for the minimum allowed term count
`term = 2` (a-vector of length 2), both `_quantile` and `densitySmallM`
compute the third series element unconditionally (lines 332 and 387)
and so read `a[3]`, raising `KeyError` at every interior probability
instead of returning the closed-form two-term values.  Shown at
`a = [0, 1]`, `p = 1/2`, for every log/exp. -/
theorem claim_C3 : ∀ L E : ℚ → ℚ,
    mlQuantile L E ⟨[0, 1], 2, none, none⟩ (1/2) false = .error .keyErr ∧
    densitySmallM L E ⟨[0, 1], 2, none, none⟩ (1/2) false = .error .keyErr := by
  intro L E
  exact ⟨by with_unfolding_all rfl, by with_unfolding_all rfl⟩

/-- Claim C6: without the override flag, `_quantile` returns `lbound`
for `p ≤ 0` when the distribution is bounded below and `-inf`
otherwise, and `ubound` for `p ≥ 1` when bounded above and `+inf`
otherwise (lines 309-319). -/
theorem claim_C6 (L E : ℚ → ℚ) (m : MetaLog) (p : ℚ) :
    (p ≤ 0 → mlQuantile L E m p false =
       .ok (match m.lbound with | some l => .fin l | none => .neginf)) ∧
    (1 ≤ p → mlQuantile L E m p false =
       .ok (match m.ubound with | some u => .fin u | none => .posinf)) := by
  constructor
  · intro hp
    unfold mlQuantile
    rw [if_pos hp]
    rcases hl : m.lbound with _ | l <;> rcases hu : m.ubound with _ | u <;>
      simp [MetaLog.boundedness, hl, hu]
  · intro hp
    have hnp : ¬ p ≤ 0 := by
      intro h
      exact absurd (le_trans hp h) (by norm_num)
    unfold mlQuantile
    rw [if_neg hnp, if_pos hp]
    rcases hl : m.lbound with _ | l <;> rcases hu : m.ubound with _ | u <;>
      simp [MetaLog.boundedness, hl, hu]

/-- Witness for C6 at concrete bounded-below and bounded-above
instances. -/
theorem claim_C6_witness :
    mlQuantile logW expW mC6a (-1) false = .ok (.fin 5) ∧
    mlQuantile logW expW mC6b 2 false = .ok (.fin 7) :=
  ⟨(claim_C6 logW expW mC6a (-1)).1 (by norm_num),
   (claim_C6 logW expW mC6b 2).2 (by norm_num)⟩

/-! ### Classification of the exceptions the evaluation code can raise -/

/-- Exceptions that evaluation of quantiles/densities can produce. -/
def evalErr (e : Err) : Prop :=
  e = .keyErr ∨ e = .callErr ∨ e = .domainErr

theorem aget_evalErr (m : MetaLog) (n : ℕ) (e : Err)
    (h : m.aget n = .error e) : e = .keyErr := by
  unfold MetaLog.aget at h
  cases hg : m.a_vector.get? (n - 1) <;> rw [hg] at h <;> simp_all

theorem quantLoop_evalErr (m : MetaLog) (p05 lnp : ℚ) :
    ∀ (fuel n : ℕ) (acc : ℚ) (e : Err),
      quantLoop m p05 lnp fuel n acc = .error e → e = .keyErr := by
  intro fuel
  induction fuel with
  | zero => intro n acc e h; simp [quantLoop] at h
  | succ fuel ih =>
    intro n acc e h
    unfold quantLoop at h
    cases hg : m.aget n with
    | error e2 =>
      rw [hg, exceptErrBind] at h
      injection h with h2
      exact h2 ▸ aget_evalErr _ _ _ hg
    | ok an =>
      rw [hg, exceptOkBind] at h
      exact ih _ _ _ h

theorem unboundedQuantile_evalErr (L : ℚ → ℚ) (m : MetaLog) (p : ℚ) (e : Err)
    (h : unboundedQuantile L m p = .error e) : e = .keyErr := by
  unfold unboundedQuantile at h
  cases h1 : m.aget 1 with
  | error e1 =>
    rw [h1, exceptErrBind] at h
    injection h with h2
    exact h2 ▸ aget_evalErr _ _ _ h1
  | ok a1 =>
    rw [h1, exceptOkBind] at h
    cases h2 : m.aget 2 with
    | error e2 =>
      rw [h2, exceptErrBind] at h
      injection h with h3
      exact h3 ▸ aget_evalErr _ _ _ h2
    | ok a2 =>
      rw [h2, exceptOkBind] at h
      cases h3 : m.aget 3 with
      | error e3 =>
        rw [h3, exceptErrBind] at h
        injection h with h4
        exact h4 ▸ aget_evalErr _ _ _ h3
      | ok a3 =>
        rw [h3, exceptOkBind] at h
        split at h
        · injection h with h4; exact h4.symm
        · split at h
          · simp at h
          · split at h
            · simp at h
            · cases h4 : m.aget 4 with
              | error e4 =>
                rw [h4, exceptErrBind] at h
                injection h with h5
                exact h5 ▸ aget_evalErr _ _ _ h4
              | ok a4 =>
                rw [h4, exceptOkBind] at h
                exact quantLoop_evalErr _ _ _ _ _ _ _ h

theorem quantileInterior_evalErr (L E : ℚ → ℚ) (m : MetaLog) (p : ℚ) (e : Err)
    (h : quantileInterior L E m p = .error e) : e = .keyErr := by
  unfold quantileInterior at h
  cases hq : unboundedQuantile L m p with
  | error e1 =>
    rw [hq, exceptErrBind] at h
    injection h with h2
    exact h2 ▸ unboundedQuantile_evalErr _ _ _ _ hq
  | ok q =>
    rw [hq, exceptOkBind] at h
    split at h <;> simp_all

theorem densLoop_evalErr (m : MetaLog) (p05 p1p lnp : ℚ) :
    ∀ (fuel n : ℕ) (acc : ℚ) (e : Err),
      densLoop m p05 p1p lnp fuel n acc = .error e → evalErr e := by
  intro fuel
  induction fuel with
  | zero => intro n acc e h; simp [densLoop] at h
  | succ fuel ih =>
    intro n acc e h
    unfold densLoop at h
    cases hg : m.aget n with
    | error e2 =>
      rw [hg, exceptErrBind] at h
      injection h with h2
      exact Or.inl (h2 ▸ aget_evalErr _ _ _ hg)
    | ok an =>
      rw [hg, exceptOkBind] at h
      split at h
      · exact ih _ _ _ h
      · injection h with h2
        exact Or.inr (Or.inl h2.symm)

theorem densityBase_evalErr (L : ℚ → ℚ) (m : MetaLog) (p : ℚ) (e : Err)
    (h : densityBase L m p = .error e) : evalErr e := by
  unfold densityBase at h
  cases h2 : m.aget 2 with
  | error e2 =>
    rw [h2, exceptErrBind] at h
    injection h with h3
    exact Or.inl (h3 ▸ aget_evalErr _ _ _ h2)
  | ok a2 =>
    rw [h2, exceptOkBind] at h
    cases h3 : m.aget 3 with
    | error e3 =>
      rw [h3, exceptErrBind] at h
      injection h with h4
      exact Or.inl (h4 ▸ aget_evalErr _ _ _ h3)
    | ok a3 =>
      rw [h3, exceptOkBind] at h
      split at h
      · injection h with h4; exact Or.inl h4.symm
      · split at h
        · simp at h
        · split at h
          · simp at h
          · cases h4 : m.aget 4 with
            | error e4 =>
              rw [h4, exceptErrBind] at h
              injection h with h5
              exact Or.inl (h5 ▸ aget_evalErr _ _ _ h4)
            | ok a4 =>
              rw [h4, exceptOkBind] at h
              exact densLoop_evalErr _ _ _ _ _ _ _ _ h

theorem densitySmallM_evalErr (L E : ℚ → ℚ) (m : MetaLog) (p : ℚ)
    (fu : Bool) (e : Err)
    (h : densitySmallM L E m p fu = .error e) : evalErr e := by
  unfold densitySmallM at h
  split at h
  · injection h with h2; exact Or.inr (Or.inr h2.symm)
  · split at h
    · injection h with h2; exact Or.inr (Or.inr h2.symm)
    · cases hb : densityBase L m p with
      | error e2 =>
        rw [hb, exceptErrBind] at h
        injection h with h2
        exact h2 ▸ densityBase_evalErr _ _ _ _ hb
      | ok dbase =>
        rw [hb, exceptOkBind] at h
        split at h
        · simp at h
        · split at h
          · simp at h
          · split at h
            · cases hq : unboundedQuantile L m p with
              | error e3 =>
                rw [hq, exceptErrBind] at h
                injection h with h2
                exact Or.inl (h2 ▸ unboundedQuantile_evalErr _ _ _ _ hq)
              | ok q => rw [hq, exceptOkBind] at h; simp at h
            · split at h
              · simp at h
              · injection h with h2; exact Or.inr (Or.inr h2.symm)
          · split at h
            · cases hq : unboundedQuantile L m p with
              | error e3 =>
                rw [hq, exceptErrBind] at h
                injection h with h2
                exact Or.inl (h2 ▸ unboundedQuantile_evalErr _ _ _ _ hq)
              | ok q => rw [hq, exceptOkBind] at h; simp at h
            · split at h
              · simp at h
              · injection h with h2; exact Or.inr (Or.inr h2.symm)
          · split at h
            · cases hq : unboundedQuantile L m p with
              | error e3 =>
                rw [hq, exceptErrBind] at h
                injection h with h2
                exact Or.inl (h2 ▸ unboundedQuantile_evalErr _ _ _ _ hq)
              | ok q => rw [hq, exceptOkBind] at h; simp at h
            · simp at h

theorem mapME_evalErr {f : ℚ → Except Err ℚ}
    (hf : ∀ a e, f a = .error e → evalErr e) :
    ∀ (l : List ℚ) (e : Err), mapME f l = .error e → evalErr e := by
  intro l
  induction l with
  | nil => intro e h; simp [mapME] at h
  | cons x rest ih =>
    intro e h
    unfold mapME at h
    cases hx : f x with
    | error e1 =>
      rw [hx, exceptErrBind] at h
      injection h with h2
      exact h2 ▸ hf _ _ hx
    | ok y =>
      rw [hx, exceptOkBind] at h
      cases hr : mapME f rest with
      | error e2 =>
        rw [hr, exceptErrBind] at h
        injection h with h2
        exact h2 ▸ ih _ hr
      | ok ys => rw [hr, exceptOkBind] at h; simp at h

theorem quantileGridQ_evalErr (L E : ℚ → ℚ) (m : MetaLog) (n : ℕ) (e : Err)
    (h : quantileGridQ L E m n = .error e) : evalErr e := by
  unfold quantileGridQ at h
  exact mapME_evalErr (fun a e2 h2 => Or.inl (quantileInterior_evalErr _ _ _ _ _ h2)) _ _ h

theorem densityGrid_evalErr (L E : ℚ → ℚ) (m : MetaLog) (n : ℕ) (e : Err)
    (h : densityGrid L E m n = .error e) : evalErr e := by
  unfold densityGrid at h
  exact mapME_evalErr (fun a e2 h2 => densitySmallM_evalErr _ _ _ _ _ _ h2) _ _ h

theorem strategyScore_evalErr (L E : ℚ → ℚ) (orc : Oracles) (s : Strategy)
    (m : MetaLog) (e : Err)
    (h : strategyScore L E orc s m = .error e) : evalErr e := by
  unfold strategyScore at h
  cases s with
  | QuantileMinimumIncrement =>
    simp only at h
    cases hg : quantileGridQ L E m 100 with
    | error e1 =>
      rw [hg, exceptErrBind] at h
      injection h with h2
      exact h2 ▸ quantileGridQ_evalErr _ _ _ _ _ hg
    | ok xs => rw [hg, exceptOkBind] at h; simp at h
  | QuantileSumNegativeIncrements =>
    simp only at h
    unfold infeasibilityScoreQuantileSumNegativeIncrements at h
    cases hg : quantileGridQ L E m 200 with
    | error e1 =>
      rw [hg, exceptErrBind] at h
      injection h with h2
      exact h2 ▸ quantileGridQ_evalErr _ _ _ _ _ hg
    | ok xs => rw [hg, exceptOkBind] at h; simp at h
  | SmallMReciprocal =>
    simp only at h
    unfold infeasibilityScoreSmallMReciprocal at h
    cases hg : densityGrid L E m 100 with
    | error e1 =>
      rw [hg, exceptErrBind] at h
      injection h with h2
      exact h2 ▸ densityGrid_evalErr _ _ _ _ _ hg
    | ok ds => rw [hg, exceptOkBind] at h; simp at h

theorem isFeasible_evalErr (L E : ℚ → ℚ) (orc : Oracles) (s : Strategy)
    (st : MLState) (e : Err)
    (h : isFeasible L E orc s st = .error e) : evalErr e := by
  unfold isFeasible at h
  cases hs : strategyScore L E orc s st.dist with
  | error e1 =>
    rw [hs] at h
    injection h with h2
    exact h2 ▸ strategyScore_evalErr _ _ _ _ _ _ hs
  | ok sc =>
    rw [hs] at h
    cases s <;> simp only at h
    · split at h <;> simp at h
    · simp at h
    · simp at h

theorem feasibilityBool_evalErr (L E : ℚ → ℚ) (orc : Oracles) (s : Strategy)
    (lb ub : Option ℚ) (a : List ℚ) (e : Err)
    (h : feasibilityBool L E orc s lb ub a = .error e) : evalErr e := by
  unfold feasibilityBool at h
  cases s with
  | SmallMReciprocal =>
    simp only at h
    cases hg : infeasibilityScoreSmallMReciprocal L E (candidateDist lb ub a) with
    | error e1 =>
      rw [hg, exceptErrBind] at h
      injection h with h2
      subst h2
      unfold infeasibilityScoreSmallMReciprocal at hg
      cases hd : densityGrid L E (candidateDist lb ub a) 100 with
      | error e2 =>
        rw [hd, exceptErrBind] at hg
        injection hg with h3
        exact h3 ▸ densityGrid_evalErr _ _ _ _ _ hd
      | ok ds => rw [hd, exceptOkBind] at hg; simp at hg
    | ok sc => rw [hg, exceptOkBind] at h; simp at h
  | QuantileSumNegativeIncrements =>
    simp only at h
    cases hg : infeasibilityScoreQuantileSumNegativeIncrements L E (candidateDist lb ub a) with
    | error e1 =>
      rw [hg, exceptErrBind] at h
      injection h with h2
      subst h2
      unfold infeasibilityScoreQuantileSumNegativeIncrements at hg
      cases hd : quantileGridQ L E (candidateDist lb ub a) 200 with
      | error e2 =>
        rw [hd, exceptErrBind] at hg
        injection hg with h3
        exact h3 ▸ quantileGridQ_evalErr _ _ _ _ _ hd
      | ok xs => rw [hd, exceptOkBind] at hg; simp at hg
    | ok sc => rw [hg, exceptOkBind] at h; simp at h
  | QuantileMinimumIncrement =>
    simp only at h
    cases hg : quantileGridQ L E (candidateDist lb ub a) 100 with
    | error e1 =>
      rw [hg, exceptErrBind] at h
      injection h with h2
      exact h2 ▸ quantileGridQ_evalErr _ _ _ _ _ hg
    | ok xs => rw [hg, exceptOkBind] at h; simp at h

theorem exceptPureBind {α β : Type} (a : α) (f : α → Except Err β) :
    ((pure a : Except Err α) >>= f) = f a := rfl

theorem fitNumericLeastSquares_evalErr (L E : ℚ → ℚ) (orc : Oracles)
    (s : Strategy) (st : MLState) (e : Err)
    (h : fitNumericLeastSquares L E orc s st = .error e) : evalErr e := by
  unfold fitNumericLeastSquares at h
  simp only [] at h
  by_cases hf : (1 : ℚ)/100 < orc.defaultRes.fval
  · rw [if_pos hf, exceptPureBind] at h
    split at h <;> simp at h
  · rw [if_neg hf] at h
    cases hb : feasibilityBool L E orc s st.lbound st.ubound orc.defaultRes.x with
    | error e1 =>
      rw [hb, exceptErrBind] at h
      injection h with h2
      exact h2 ▸ feasibilityBool_evalErr _ _ _ _ _ _ _ _ hb
    | ok b =>
      rw [hb, exceptOkBind, exceptPureBind] at h
      split at h <;> simp at h

theorem evalErr_ne_lenMismatch {e : Err} (h : evalErr e) : e ≠ .lenMismatchErr := by
  rcases h with h | h | h <;> subst h <;> simp

theorem construct_ne_lenMismatch (L E : ℚ → ℚ) (orc : Oracles) (P : Params) :
    construct L E orc P ≠ .error .lenMismatchErr := by
  intro h
  unfold construct at h
  rcases hps : P.cdf_ps with _ | ps <;> rcases hxs : P.cdf_xs with _ | xs <;>
      rw [hps, hxs] at h <;>
      rcases hav : P.a_vector with _ | a <;> rw [hav] at h <;>
      try simp only [exceptOkBind] at h
  · simp at h
  · simp at h
  · simp at h
  · simp at h
  · simp at h
  · simp at h
  · -- both sample lists present, no a-vector: the fitting path
    by_cases hlen : xs.length < ps.length
    · rw [if_pos hlen, exceptErrBind] at h
      simp at h
    · rw [if_neg hlen, exceptOkBind] at h
      rw [show lengthMismatch ps xs = false from by simp [lengthMismatch]] at h
      rw [if_neg (by simp : ¬ (false = true))] at h
      by_cases ht : P.term.getD ps.length ≤ 1
      · rw [if_pos ht] at h
        simp at h
      · rw [if_neg ht] at h
        try simp only [] at h
        cases hr1 : isFeasible L E orc P.feasibility_method (llsState orc P ps) with
        | error e1 =>
          rw [hr1, exceptErrBind] at h
          injection h with h2
          exact evalErr_ne_lenMismatch (isFeasible_evalErr _ _ _ _ _ _ hr1) h2
        | ok res =>
          rw [hr1, exceptOkBind] at h
          try simp only [] at h
          by_cases hb : res.2 = true
          · rw [if_pos hb] at h
            cases hr4 : isFeasible L E orc P.feasibility_method
                { res.1 with fit_method_used := some .LLS,
                             valid_distribution := some true } with
            | error e4 =>
              rw [hr4, exceptErrBind] at h
              injection h with h2
              exact evalErr_ne_lenMismatch (isFeasible_evalErr _ _ _ _ _ _ hr4) h2
            | ok res4 =>
              rw [hr4, exceptOkBind] at h
              simp at h
          · rw [if_neg hb] at h
            by_cases hfm : P.fit_method ≠ FitMethodParam.LLS
            · rw [if_pos hfm] at h
              cases hfn : fitNumericLeastSquares L E orc P.feasibility_method
                  { res.1 with fit_method_used := some .numeric } with
              | error e3 =>
                rw [hfn, exceptErrBind] at h
                injection h with h2
                exact evalErr_ne_lenMismatch
                  (fitNumericLeastSquares_evalErr _ _ _ _ _ _ hfn) h2
              | ok st3 =>
                rw [hfn, exceptOkBind] at h
                try simp only [] at h
                cases hr4 : isFeasible L E orc P.feasibility_method st3 with
                | error e4 =>
                  rw [hr4, exceptErrBind] at h
                  injection h with h2
                  exact evalErr_ne_lenMismatch (isFeasible_evalErr _ _ _ _ _ _ hr4) h2
                | ok res4 =>
                  rw [hr4, exceptOkBind] at h
                  simp at h
            · rw [if_neg hfm] at h
              cases hr4 : isFeasible L E orc P.feasibility_method
                  { res.1 with valid_distribution := some false } with
              | error e4 =>
                rw [hr4, exceptErrBind] at h
                injection h with h2
                exact evalErr_ne_lenMismatch (isFeasible_evalErr _ _ _ _ _ _ hr4) h2
              | ok res4 =>
                rw [hr4, exceptOkBind] at h
                simp at h
  · -- both sample lists present, a-vector supplied directly
    by_cases hlen : xs.length < ps.length
    · rw [if_pos hlen, exceptErrBind] at h
      simp at h
    · rw [if_neg hlen, exceptOkBind] at h
      simp at h

/-- Claim C10: the constructor's length-mismatch check (line 59)
compares `len(cdf_ps)` with itself, so its `ValueError` branch is
unreachable: the guard is false for every pair of inputs, and no
construction ever raises that error — mismatched lengths pass the check
silently. -/
theorem claim_C10 :
    (∀ ps xs : List ℚ, lengthMismatch ps xs = false) ∧
    ∀ (L E : ℚ → ℚ) (orc : Oracles) (P : Params),
      construct L E orc P ≠ .error .lenMismatchErr :=
  ⟨fun ps xs => by simp [lengthMismatch],
   fun L E orc P => construct_ne_lenMismatch L E orc P⟩

/-! ### Claim C1 -/

/-- Claim C1 (amended): when the two-stage escalation runs both solvers,
the trust-region result is kept exactly when its reported constraint
violation is zero *and* its objective is strictly lower than the
default solver's; in every other case — including when only the
trust-region result satisfies the constraint — the default solver's
result is kept (lines 190-194). -/
theorem claim_C1 (L E : ℚ → ℚ) (orc : Oracles) (s : Strategy) (st stOut : MLState)
    (hrun : fitNumericLeastSquares L E orc s st = .ok stOut)
    (hesc : stOut.numeric_ls_solver_used = some .trustConstr) :
    stOut.a_vector =
      if orc.trustRes.constr_violation = 0 ∧ orc.trustRes.fval < orc.defaultRes.fval
      then orc.trustRes.x else orc.defaultRes.x := by
  unfold fitNumericLeastSquares at hrun
  try simp only [] at hrun
  by_cases hf : (1 : ℚ)/100 < orc.defaultRes.fval
  · rw [if_pos hf, exceptPureBind] at hrun
    split at hrun
    · injection hrun with h2
      rw [← h2]
      by_cases hc : orc.trustRes.constr_violation = 0
      · by_cases hlt : orc.trustRes.fval < orc.defaultRes.fval
        · simp [hc, hlt]
        · simp [hc, hlt]
      · simp [hc]
    · simp_all
  · rw [if_neg hf] at hrun
    cases hbb : feasibilityBool L E orc s st.lbound st.ubound orc.defaultRes.x with
    | error e1 => rw [hbb, exceptErrBind] at hrun; simp at hrun
    | ok b =>
      rw [hbb, exceptOkBind, exceptPureBind] at hrun
      split at hrun
      · injection hrun with h2
        rw [← h2]
        by_cases hc : orc.trustRes.constr_violation = 0
        · by_cases hlt : orc.trustRes.fval < orc.defaultRes.fval
          · simp [hc, hlt]
          · simp [hc, hlt]
        · simp [hc]
      · injection hrun with h2
        rw [← h2] at hesc
        simp at hesc

/-- Witness for the amended C1 at the concrete escalated run
`stC1`/`orcC1`. -/
theorem claim_C1_witness :
    stOutC1.a_vector =
      if orcC1.trustRes.constr_violation = 0 ∧ orcC1.trustRes.fval < orcC1.defaultRes.fval
      then orcC1.trustRes.x else orcC1.defaultRes.x :=
  claim_C1 logW expW orcC1 .SmallMReciprocal stC1 stOutC1
    (by with_unfolding_all decide) rfl

/-- Counterexample to claim C1 as stated: with the default solver
returning the infeasible vector `[0,1,0,-10,0]` at objective 0 and the
trust-region solver returning a constraint-satisfying vector
(`constr_violation = 0`) at objective 1, both solvers run, only the
trust-region result satisfies the constraint, yet the default
(infeasible) result is kept because its objective is not strictly
larger. -/
theorem claim_C1_counterexample : ¬ C1Prop := by
  intro hclaim
  have h := (hclaim logW expW orcC1 .SmallMReciprocal stC1 stOutC1 false
      (by with_unfolding_all decide) (by with_unfolding_all rfl)
      (by with_unfolding_all decide)).1 ⟨by with_unfolding_all rfl, rfl⟩
  exact absurd h (by with_unfolding_all decide)

/-! ### Structure of `isFeasible` runs -/

theorem isFeasible_eval (L E : ℚ → ℚ) (orc : Oracles) (s : Strategy) (st : MLState) :
    isFeasible L E orc s st = (strategyScore L E orc s st.dist).map (fun sc =>
      ({ st with valid_distribution := some (scoreToBool s sc),
                 valid_distribution_violation :=
                   some (if s = .QuantileMinimumIncrement ∧ 0 ≤ sc then 0 else sc) },
       scoreToBool s sc)) := by
  unfold isFeasible
  cases hs : strategyScore L E orc s st.dist with
  | error e => rw [exceptMapErrQ]
  | ok sc =>
    rw [exceptMapOkQ]
    try simp only []
    cases s with
    | QuantileMinimumIncrement =>
      by_cases hsc : sc < 0
      · rw [if_pos hsc]
        have h1 : scoreToBool Strategy.QuantileMinimumIncrement sc = false := by
          simp [scoreToBool]
          linarith
        have h2 : ¬ (Strategy.QuantileMinimumIncrement = Strategy.QuantileMinimumIncrement ∧ 0 ≤ sc) := by
          rintro ⟨-, h⟩
          linarith
        rw [h1, if_neg h2]
      · rw [if_neg hsc]
        have h1 : scoreToBool Strategy.QuantileMinimumIncrement sc = true := by
          simp [scoreToBool]
          linarith
        have h2 : Strategy.QuantileMinimumIncrement = Strategy.QuantileMinimumIncrement ∧ 0 ≤ sc :=
          ⟨rfl, by linarith⟩
        rw [h1, if_pos h2]
    | QuantileSumNegativeIncrements => simp [scoreToBool]
    | SmallMReciprocal => simp [scoreToBool]

theorem isFeasibleRun_eval (L E : ℚ → ℚ) (orc : Oracles) (s : Strategy) (st : MLState) :
    isFeasibleRun L E orc s st =
      (strategyScore L E orc s st.dist).toOption.map (scoreToBool s) := by
  unfold isFeasibleRun
  rw [isFeasible_eval]
  cases strategyScore L E orc s st.dist <;> rfl

/-! ### Claim C8 -/

/-- Claim C8: with `fit_method = 'LLS'` and an infeasible linear least
squares result, the Numeric Refiner never runs: the construction result
does not depend on the two solver oracles, `numeric_ls_solver_used`
keeps its initial `None`, and the distribution ends construction with
`valid_distribution = False` (lines 74-96; `fit_method_used` is never
assigned on this path). -/
theorem claim_C8 (L E : ℚ → ℚ) (orc : Oracles) (r1 r2 : SolverResult) (P : Params)
    (ps xs : List ℚ)
    (hps : P.cdf_ps = some ps) (hxs : P.cdf_xs = some xs)
    (hlen : ps.length ≤ xs.length)
    (hfm : P.fit_method = .LLS) (hav : P.a_vector = none)
    (hterm : 2 ≤ P.term.getD ps.length)
    (hinf : isFeasibleRun L E orc P.feasibility_method (llsState orc P ps) = some false) :
    (construct L E orc P).toOption.map
        (fun st => (st.numeric_ls_solver_used, st.valid_distribution, st.fit_method_used))
      = some (none, some false, none) ∧
    construct L E { orc with defaultRes := r1, trustRes := r2 } P =
      construct L E orc P := by
  rw [isFeasibleRun_eval] at hinf
  rcases hs : strategyScore L E orc P.feasibility_method (llsState orc P ps).dist with e | sc
  · rw [hs] at hinf
    simp [Except.toOption] at hinf
  · rw [hs] at hinf
    simp only [Except.toOption, Option.map_some] at hinf
    injection hinf with hb
    have key : ∀ orc2 : Oracles, orc2.lls = orc.lls → orc2.qmi = orc.qmi →
        orc2.defaultRes = orc2.defaultRes →
        construct L E orc2 P =
          .ok { llsState orc P ps with
                valid_distribution := some false,
                valid_distribution_violation :=
                  some (if P.feasibility_method = .QuantileMinimumIncrement ∧ 0 ≤ sc
                        then 0 else sc) } := by
      intro orc2 hlls hqmi _
      have hsls : llsState orc2 P ps = llsState orc P ps := by
        unfold llsState initState
        rw [hlls]
      have hs2 : strategyScore L E orc2 P.feasibility_method (llsState orc P ps).dist
          = .ok sc := by
        rw [← hs]
        unfold strategyScore
        cases P.feasibility_method <;> simp [hqmi]
      unfold construct
      rw [hps, hxs, hav]
      try simp only []
      rw [if_neg (by omega : ¬ xs.length < ps.length), exceptOkBind]
      rw [show lengthMismatch ps xs = false from by simp [lengthMismatch]]
      rw [if_neg (by simp : ¬ (false = true))]
      rw [if_neg (by omega : ¬ P.term.getD ps.length ≤ 1)]
      try simp only []
      rw [hsls, isFeasible_eval, hs2, exceptMapOkQ, exceptOkBind]
      try simp only []
      rw [hb]
      rw [if_neg (by simp : ¬ (false = true))]
      rw [hfm]
      rw [if_neg (by simp : ¬ (FitMethodParam.LLS ≠ FitMethodParam.LLS)), exceptOkBind]
      have hd3 : ({ llsState orc P ps with
            valid_distribution := some false,
            valid_distribution_violation :=
              some (if P.feasibility_method = .QuantileMinimumIncrement ∧ 0 ≤ sc
                    then 0 else sc) } : MLState).dist = (llsState orc P ps).dist := by
        simp [MLState.dist]
      rw [isFeasible_eval, hd3, hs2, exceptMapOkQ, exceptOkBind]
      rw [hb]
    constructor
    · rw [key orc rfl rfl rfl]
      rfl
    · rw [key { orc with defaultRes := r1, trustRes := r2 } rfl rfl rfl, key orc rfl rfl rfl]

/-- Witness for C8 at the concrete `'LLS'`-restricted construction
`PC8`/`orcC8` with an infeasible linear fit. -/
theorem claim_C8_witness :
    (construct logW expW orcC8 PC8).toOption.map
        (fun st => (st.numeric_ls_solver_used, st.valid_distribution, st.fit_method_used))
      = some (none, some false, none) ∧
    construct logW expW { orcC8 with defaultRes := ⟨[5], 5, 5⟩, trustRes := ⟨[6], 6, 6⟩ } PC8 =
      construct logW expW orcC8 PC8 :=
  claim_C8 logW expW orcC8 ⟨[5], 5, 5⟩ ⟨[6], 6, 6⟩ PC8
    [1/10, 3/10, 5/10, 7/10, 9/10] [1, 2, 3, 4, 5] rfl rfl
    (by decide) rfl rfl (by decide) (by with_unfolding_all decide)

/-! ### Claim C9 -/

theorem fitNumericLeastSquares_fields (L E : ℚ → ℚ) (orc : Oracles) (s : Strategy)
    (st stOut : MLState)
    (h : fitNumericLeastSquares L E orc s st = .ok stOut) :
    stOut.fit_method_used = st.fit_method_used ∧
    stOut.valid_distribution = st.valid_distribution ∧
    stOut.valid_distribution_violation = st.valid_distribution_violation := by
  unfold fitNumericLeastSquares at h
  try simp only [] at h
  by_cases hf : (1 : ℚ)/100 < orc.defaultRes.fval
  · rw [if_pos hf, exceptPureBind] at h
    split at h
    · injection h with h2
      rw [← h2]
      exact ⟨rfl, rfl, rfl⟩
    · simp_all
  · rw [if_neg hf] at h
    cases hbb : feasibilityBool L E orc s st.lbound st.ubound orc.defaultRes.x with
    | error e1 => rw [hbb, exceptErrBind] at h; simp at h
    | ok b =>
      rw [hbb, exceptOkBind, exceptPureBind] at h
      split at h <;> (injection h with h2; rw [← h2]; exact ⟨rfl, rfl, rfl⟩)

/-- Claim C9 (amended): on the sample-fitting construction paths,
`valid_distribution` and the violation score are always assigned, and
`fit_method_used` is assigned exactly on the paths where the linear fit
is feasible (value `'LLS'`) or numeric fitting is attempted (value
`'numeric'`); on the `'LLS'`-restricted infeasible path it stays
unassigned while `valid_distribution = False`.  On the direct a-vector
path none of the three diagnostics is assigned (see the
counterexample). -/
theorem claim_C9 (L E : ℚ → ℚ) (orc : Oracles) (P : Params) (st : MLState)
    (hav : P.a_vector = none)
    (hst : construct L E orc P = .ok st) :
    st.valid_distribution ≠ none ∧ st.valid_distribution_violation ≠ none ∧
      (st.fit_method_used = some .LLS ∨ st.fit_method_used = some .numeric ∨
        (st.fit_method_used = none ∧ P.fit_method = .LLS ∧
          st.valid_distribution = some false)) := by
  unfold construct at hst
  rcases hps : P.cdf_ps with _ | ps <;> rcases hxs : P.cdf_xs with _ | xs <;>
      rw [hps, hxs, hav] at hst <;> try simp only [exceptOkBind] at hst
  · simp at hst
  · simp at hst
  · simp at hst
  · by_cases hlen : xs.length < ps.length
    · rw [if_pos hlen, exceptErrBind] at hst
      simp at hst
    · rw [if_neg hlen, exceptOkBind] at hst
      rw [show lengthMismatch ps xs = false from by simp [lengthMismatch]] at hst
      rw [if_neg (by simp : ¬ (false = true))] at hst
      by_cases ht : P.term.getD ps.length ≤ 1
      · rw [if_pos ht] at hst
        simp at hst
      · rw [if_neg ht] at hst
        try simp only [] at hst
        rcases hsc1 : strategyScore L E orc P.feasibility_method
            (llsState orc P ps).dist with e1 | sc1
        · rw [isFeasible_eval, hsc1, exceptMapErrQ, exceptErrBind] at hst
          simp at hst
        · rw [isFeasible_eval, hsc1, exceptMapOkQ, exceptOkBind] at hst
          try simp only [] at hst
          by_cases hsb : scoreToBool P.feasibility_method sc1 = true
          · rw [if_pos hsb] at hst
            have hdeq : ({ llsState orc P ps with
                  fit_method_used := some .LLS,
                  valid_distribution := some true,
                  valid_distribution_violation :=
                    some (if P.feasibility_method = .QuantileMinimumIncrement ∧ 0 ≤ sc1
                          then 0 else sc1) } : MLState).dist
                = (llsState orc P ps).dist := by
              simp [MLState.dist]
            rw [isFeasible_eval] at hst
            rw [hdeq, hsc1, exceptMapOkQ, exceptOkBind] at hst
            injection hst with h2
            rw [← h2]
            exact ⟨by simp, by simp, Or.inl rfl⟩
          · rw [if_neg hsb] at hst
            by_cases hfm2 : P.fit_method ≠ FitMethodParam.LLS
            · rw [if_pos hfm2] at hst
              cases hfn : fitNumericLeastSquares L E orc P.feasibility_method
                  { llsState orc P ps with
                    fit_method_used := some .numeric,
                    valid_distribution := some (scoreToBool P.feasibility_method sc1),
                    valid_distribution_violation :=
                      some (if P.feasibility_method = .QuantileMinimumIncrement ∧ 0 ≤ sc1
                            then 0 else sc1) } with
              | error e3 => rw [hfn, exceptErrBind] at hst; simp at hst
              | ok st3 =>
                rw [hfn, exceptOkBind] at hst
                try simp only [] at hst
                rcases hsc4 : strategyScore L E orc P.feasibility_method st3.dist
                    with e4 | sc4
                · rw [isFeasible_eval, hsc4, exceptMapErrQ, exceptErrBind] at hst
                  simp at hst
                · rw [isFeasible_eval, hsc4, exceptMapOkQ, exceptOkBind] at hst
                  injection hst with h2
                  rw [← h2]
                  refine ⟨by simp, by simp, Or.inr (Or.inl ?_)⟩
                  have := (fitNumericLeastSquares_fields _ _ _ _ _ _ hfn).1
                  simpa using this
            · rw [if_neg hfm2] at hst
              rw [isFeasible_eval] at hst
              have hdeq2 : ({ llsState orc P ps with
                    valid_distribution := some false,
                    valid_distribution_violation :=
                      some (if P.feasibility_method = .QuantileMinimumIncrement ∧ 0 ≤ sc1
                            then 0 else sc1) } : MLState).dist
                  = (llsState orc P ps).dist := by
                simp [MLState.dist]
              rw [hdeq2, hsc1, exceptMapOkQ, exceptOkBind] at hst
              injection hst with h2
              rw [← h2]
              have hfmeq : P.fit_method = FitMethodParam.LLS := by
                by_contra hne
                exact hfm2 hne
              have hsbf : scoreToBool P.feasibility_method sc1 = false := by
                cases hbv : scoreToBool P.feasibility_method sc1
                · rfl
                · exact absurd hbv hsb
              exact ⟨by simp, by simp,
                Or.inr (Or.inr ⟨by simp [llsState, initState], hfmeq, by simp [hsbf]⟩)⟩

/-- Witness for the amended C9 at the concrete feasible-LLS
construction `PW9`/`orcW9`. -/
theorem claim_C9_witness :
    stW9.valid_distribution ≠ none ∧ stW9.valid_distribution_violation ≠ none ∧
      (stW9.fit_method_used = some .LLS ∨ stW9.fit_method_used = some .numeric ∨
        (stW9.fit_method_used = none ∧ PW9.fit_method = .LLS ∧
          stW9.valid_distribution = some false)) :=
  claim_C9 logW expW orcW9 PW9 stW9 rfl (by with_unfolding_all decide)

/-- Counterexample to claim C9 as stated: when the caller supplies the
a-vector directly (lines 51-57), the constructor returns before
assigning any of `fit_method_used`, `valid_distribution` and
`valid_distribution_violation`, so reading them raises
`AttributeError` — they are not defined, and in particular
`fit_method_used` never holds a `'none'` value. -/
theorem claim_C9_counterexample : ¬ C9Prop := by
  intro hclaim
  have h := hclaim logW expW orcW PC9 (initState PC9 [1, 2, 3] 3)
    (by with_unfolding_all rfl)
  exact h.1 rfl

/-! ### Score characterisations -/

theorem sumNegGo_nonneg (L : ℚ → ℚ) (hL : ∀ y : ℚ, 1 < y → 0 < L y) :
    ∀ (xs : List ℚ) (acc : Option ℚ), 0 ≤ sumNegGo L acc xs := by
  intro xs
  induction xs with
  | nil => intro acc; cases acc <;> simp [sumNegGo]
  | cons x rest ih =>
    intro acc
    cases acc with
    | none => simpa [sumNegGo] using ih (some x)
    | some prev =>
      unfold sumNegGo
      have h1 : 0 ≤ (if x - prev < 0 then L (1 - (x - prev)) else 0) := by
        split
        · have hgt : (1 : ℚ) < 1 - (x - prev) := by linarith
          exact le_of_lt (hL _ hgt)
        · exact le_refl 0
      have h2 := ih (some x)
      linarith

theorem sumNegGo_some_eq_zero (L : ℚ → ℚ) (hL : ∀ y : ℚ, 1 < y → 0 < L y) :
    ∀ (xs : List ℚ) (prev : ℚ),
      sumNegGo L (some prev) xs = 0 ↔
        List.Chain (fun u v => ¬ v - u < 0) prev xs := by
  intro xs
  induction xs with
  | nil => intro prev; simp [sumNegGo]
  | cons x rest ih =>
    intro prev
    rw [List.chain_cons]
    unfold sumNegGo
    constructor
    · intro h0
      have h1 : 0 ≤ (if x - prev < 0 then L (1 - (x - prev)) else 0) := by
        split
        · have hgt : (1 : ℚ) < 1 - (x - prev) := by linarith
          exact le_of_lt (hL _ hgt)
        · exact le_refl 0
      have h2 := sumNegGo_nonneg L hL rest (some x)
      have hterm0 : (if x - prev < 0 then L (1 - (x - prev)) else 0) = 0 := by linarith
      have hrest0 : sumNegGo L (some x) rest = 0 := by linarith
      have hnneg : ¬ x - prev < 0 := by
        by_contra hneg
        rw [if_pos hneg] at hterm0
        have hpos := hL (1 - (x - prev)) (by linarith)
        linarith
      exact ⟨hnneg, (ih x).mp hrest0⟩
    · rintro ⟨hR, hch⟩
      rw [if_neg hR, zero_add]
      exact (ih x).mpr hch

theorem sumNegGo_none_eq_zero (L : ℚ → ℚ) (hL : ∀ y : ℚ, 1 < y → 0 < L y)
    (xs : List ℚ) :
    sumNegGo L none xs = 0 ↔ xs.Chain' (fun u v => ¬ v - u < 0) := by
  cases xs with
  | nil => simp [sumNegGo]
  | cons x rest =>
    show sumNegGo L (some x) rest = 0 ↔ List.Chain _ x rest
    exact sumNegGo_some_eq_zero L hL rest x

theorem qsum_filterNeg_nonpos (l : List ℚ) :
    qsum (l.filter fun r => decide (r < 0)) ≤ 0 := by
  induction l with
  | nil => simp [qsum]
  | cons x rest ih =>
    by_cases hx : x < 0
    · rw [List.filter_cons_of_pos (by simpa using hx)]
      unfold qsum
      linarith
    · rw [List.filter_cons_of_neg (by simpa using hx)]
      exact ih

theorem qsum_filterNeg_eq_zero (l : List ℚ) :
    qsum (l.filter fun r => decide (r < 0)) = 0 ↔ ∀ r ∈ l, ¬ r < 0 := by
  induction l with
  | nil => simp [qsum]
  | cons x rest ih =>
    by_cases hx : x < 0
    · rw [List.filter_cons_of_pos (by simpa using hx)]
      unfold qsum
      constructor
      · intro h0
        exfalso
        have h1 := qsum_filterNeg_nonpos rest
        linarith
      · intro hall
        exact absurd hx (hall x (List.mem_cons_self x rest))
    · rw [List.filter_cons_of_neg (by simpa using hx), ih]
      constructor
      · intro hall r hr
        rcases List.mem_cons.mp hr with h | h
        · exact h ▸ hx
        · exact hall r h
      · intro hall r hr
        exact hall r (List.mem_cons_of_mem _ hr)

theorem qabs_eq_zero (r : ℚ) : qabs r = 0 ↔ r = 0 := by
  unfold qabs
  split
  · constructor
    · intro h
      linarith [neg_eq_zero.mp h]
    · intro h
      rw [h, neg_zero]
  · exact Iff.rfl

/-! ### Claim C5 -/

/-- Claim C5: for each strategy, the infeasibility score stored by
`isFeasible` is exactly 0 iff the strategy's sampled grid shows no
violation: no negative consecutive quantile difference on the 200-point
grid for `QuantileSumNegativeIncrements`, no negative reciprocal
density on the 100-point grid for `SmallMReciprocal`, and (for
`QuantileMinimumIncrement`) no negative minimized finite-difference
slope. -/
theorem claim_C5 (L E : ℚ → ℚ) (orc : Oracles) (st st2 st3 st4 : MLState)
    (b2 b3 b4 : Bool)
    (hL : ∀ y : ℚ, 1 < y → 0 < L y)
    (hsum : isFeasible L E orc .QuantileSumNegativeIncrements st = .ok (st2, b2))
    (hsm : isFeasible L E orc .SmallMReciprocal st = .ok (st3, b3))
    (hqmi : isFeasible L E orc .QuantileMinimumIncrement st = .ok (st4, b4)) :
    (st2.valid_distribution_violation = some 0 ↔
      ∃ xs, quantileGridQ L E st.dist 200 = .ok xs ∧
        xs.Chain' (fun u v => ¬ v - u < 0)) ∧
    (st3.valid_distribution_violation = some 0 ↔
      ∃ ds, densityGrid L E st.dist 100 = .ok ds ∧ ∀ d ∈ ds, ¬ 1 / d < 0) ∧
    (st4.valid_distribution_violation = some 0 ↔ ¬ orc.qmi st.a_vector < 0) := by
  refine ⟨?_, ?_, ?_⟩
  · rw [isFeasible_eval] at hsum
    rcases hsc : strategyScore L E orc .QuantileSumNegativeIncrements st.dist
        with e | sc
    · rw [hsc, exceptMapErrQ] at hsum
      simp at hsum
    · rw [hsc, exceptMapOkQ] at hsum
      simp only [Except.ok.injEq, Prod.mk.injEq] at hsum
      rw [← hsum.1]
      simp only []
      rw [if_neg (by simp : ¬ (Strategy.QuantileSumNegativeIncrements =
            Strategy.QuantileMinimumIncrement ∧ 0 ≤ sc))]
      unfold strategyScore infeasibilityScoreQuantileSumNegativeIncrements at hsc
      rcases hg : quantileGridQ L E st.dist 200 with e | xs
      · rw [hg, exceptErrBind] at hsc
        simp at hsc
      · rw [hg, exceptOkBind] at hsc
        injection hsc with hsc2
        constructor
        · intro h0
          injection h0 with h1
          refine ⟨xs, rfl, ?_⟩
          rw [← sumNegGo_none_eq_zero L hL xs, hsc2, h1]
        · rintro ⟨xs2, hxs2, hch⟩
          injection hxs2 with hxe
          subst hxe
          rw [← hsc2, (sumNegGo_none_eq_zero L hL xs).mpr hch]
  · rw [isFeasible_eval] at hsm
    rcases hsc : strategyScore L E orc .SmallMReciprocal st.dist with e | sc
    · rw [hsc, exceptMapErrQ] at hsm
      simp at hsm
    · rw [hsc, exceptMapOkQ] at hsm
      simp only [Except.ok.injEq, Prod.mk.injEq] at hsm
      rw [← hsm.1]
      simp only []
      rw [if_neg (by simp : ¬ (Strategy.SmallMReciprocal =
            Strategy.QuantileMinimumIncrement ∧ 0 ≤ sc))]
      unfold strategyScore infeasibilityScoreSmallMReciprocal at hsc
      rcases hg : densityGrid L E st.dist 100 with e | ds
      · rw [hg, exceptErrBind] at hsc
        simp at hsc
      · rw [hg, exceptOkBind] at hsc
        injection hsc with hsc2
        constructor
        · intro h0
          injection h0 with h1
          refine ⟨ds, rfl, ?_⟩
          have hqa : qabs (qsum ((ds.map fun d => 1 / d).filter
              fun r => decide (r < 0))) = 0 := by
            rw [hsc2, h1]
          have hq := (qabs_eq_zero _).mp hqa
          have hall := (qsum_filterNeg_eq_zero _).mp hq
          intro d hd
          exact hall (1 / d) (List.mem_map_of_mem _ hd)
        · rintro ⟨ds2, hds2, hall⟩
          injection hds2 with hde
          subst hde
          rw [← hsc2]
          have hall2 : ∀ r ∈ ds.map fun d => 1 / d, ¬ r < 0 := by
            intro r hr
            rcases List.mem_map.mp hr with ⟨d, hd, hrd⟩
            exact hrd ▸ hall d hd
          have hz : qsum ((ds.map fun d => 1 / d).filter
              fun r => decide (r < 0)) = 0 :=
            (qsum_filterNeg_eq_zero _).mpr hall2
          rw [hz]
          simp [qabs]
  · rw [isFeasible_eval] at hqmi
    rcases hsc : strategyScore L E orc .QuantileMinimumIncrement st.dist with e | sc
    · rw [hsc, exceptMapErrQ] at hqmi
      simp at hqmi
    · rw [hsc, exceptMapOkQ] at hqmi
      simp only [Except.ok.injEq, Prod.mk.injEq] at hqmi
      rw [← hqmi.1]
      simp only []
      have hsc2 : sc = orc.qmi st.a_vector := by
        unfold strategyScore at hsc
        rcases hg : quantileGridQ L E st.dist 100 with e | xs
        · rw [hg, exceptErrBind] at hsc
          simp at hsc
        · rw [hg, exceptOkBind] at hsc
          injection hsc with h1
          exact h1.symm
      subst hsc2
      by_cases h0 : 0 ≤ orc.qmi st.a_vector
      · rw [if_pos ⟨by trivial, h0⟩]
        simp only [Option.some.injEq]
        exact ⟨fun _ => not_lt.mpr h0, fun _ => trivial⟩
      · rw [if_neg (by rintro ⟨-, hc⟩; exact h0 hc)]
        simp only [Option.some.injEq]
        constructor
        · intro h1
          exact absurd (le_of_eq h1.symm) h0
        · intro h1
          exact absurd (not_lt.mp h1) h0

/-- Witness for C5 at the concrete feasible instance `stC5` under all
three strategies. -/
theorem claim_C5_witness :
    (stC5r.valid_distribution_violation = some 0 ↔
      ∃ xs, quantileGridQ logW expW stC5.dist 200 = .ok xs ∧
        xs.Chain' (fun u v => ¬ v - u < 0)) ∧
    (stC5r.valid_distribution_violation = some 0 ↔
      ∃ ds, densityGrid logW expW stC5.dist 100 = .ok ds ∧ ∀ d ∈ ds, ¬ 1 / d < 0) ∧
    (stC5r.valid_distribution_violation = some 0 ↔ ¬ orcW.qmi stC5.a_vector < 0) :=
  claim_C5 logW expW orcW stC5 stC5r stC5r stC5r true true true
    (fun y hy => by simp only [logW]; linarith)
    (by with_unfolding_all decide)
    (by with_unfolding_all decide)
    (by with_unfolding_all decide)

/-! ### Claim C4 -/

theorem mapME_ok_length {f : ℚ → Except Err ℚ} :
    ∀ {l res : List ℚ}, mapME f l = .ok res → res.length = l.length := by
  intro l
  induction l with
  | nil =>
    intro res h
    unfold mapME at h
    injection h with h2
    rw [← h2]
  | cons x rest ih =>
    intro res h
    unfold mapME at h
    cases hx : f x with
    | error e => rw [hx, exceptErrBind] at h; simp at h
    | ok y =>
      rw [hx, exceptOkBind] at h
      cases hr : mapME f rest with
      | error e => rw [hr, exceptErrBind] at h; simp at h
      | ok ys =>
        rw [hr, exceptOkBind] at h
        injection h with h2
        rw [← h2]
        simp [ih hr]

theorem mapME_ok_get {f : ℚ → Except Err ℚ} :
    ∀ {l res : List ℚ}, mapME f l = .ok res →
      ∀ (i : ℕ) (hi : i < l.length) (hri : i < res.length),
        f (l.get ⟨i, hi⟩) = .ok (res.get ⟨i, hri⟩) := by
  intro l
  induction l with
  | nil =>
    intro res h i hi hri
    exact absurd hi (by simp)
  | cons x rest ih =>
    intro res h i hi hri
    unfold mapME at h
    cases hx : f x with
    | error e => rw [hx, exceptErrBind] at h; simp at h
    | ok y =>
      rw [hx, exceptOkBind] at h
      cases hr : mapME f rest with
      | error e => rw [hr, exceptErrBind] at h; simp at h
      | ok ys =>
        rw [hr, exceptOkBind] at h
        injection h with h2
        subst h2
        cases i with
        | zero => simpa using hx
        | succ i =>
          exact ih hr i (by simpa using hi) (by simpa using hri)

theorem linspaceGrid_length (lo hi : ℚ) (n : ℕ) :
    (linspaceGrid lo hi n).length = n := by
  simp [linspaceGrid]

theorem linspaceGrid_get (lo hi : ℚ) (n i : ℕ)
    (h : i < (linspaceGrid lo hi n).length) :
    (linspaceGrid lo hi n).get ⟨i, h⟩ = linspacePoint lo hi n i := by
  unfold linspaceGrid
  simp [List.get_eq_getElem]

/-- Claim C4 (amended): feasibility reported by the
`QuantileSumNegativeIncrements` check guarantees monotonicity only at
the sampled grid points: when the stored score is 0, the quantile
values at the 200 grid points of `[0.001, 0.999]` are non-decreasing in
the grid index.  Between grid points the quantile can strictly decrease
even though the check reports the distribution feasible (see the
counterexample). -/
theorem claim_C4 (L E : ℚ → ℚ) (orc : Oracles) (st st2 : MLState)
    (hL : ∀ y : ℚ, 1 < y → 0 < L y)
    (hfeas : isFeasible L E orc .QuantileSumNegativeIncrements st = .ok (st2, true))
    (i j : ℕ) (hij : i < j) (hj : j < 200) (q1 q2 : ℚ)
    (h1 : quantileInterior L E st.dist (linspacePoint (1/1000) (999/1000) 200 i) = .ok q1)
    (h2 : quantileInterior L E st.dist (linspacePoint (1/1000) (999/1000) 200 j) = .ok q2) :
    q1 ≤ q2 := by
  rw [isFeasible_eval] at hfeas
  rcases hsc : strategyScore L E orc .QuantileSumNegativeIncrements st.dist with e | sc
  · rw [hsc, exceptMapErrQ] at hfeas
    simp at hfeas
  · rw [hsc, exceptMapOkQ] at hfeas
    simp only [Except.ok.injEq, Prod.mk.injEq] at hfeas
    have hb : scoreToBool .QuantileSumNegativeIncrements sc = true := hfeas.2
    have hsc0 : sc = 0 := by simpa [scoreToBool] using hb
    unfold strategyScore infeasibilityScoreQuantileSumNegativeIncrements at hsc
    rcases hg : quantileGridQ L E st.dist 200 with e | xs
    · rw [hg, exceptErrBind] at hsc
      simp at hsc
    · rw [hg, exceptOkBind] at hsc
      injection hsc with hsc2
      have hch : xs.Chain' (fun u v => ¬ v - u < 0) :=
        (sumNegGo_none_eq_zero L hL xs).mp (by rw [hsc2, hsc0])
      have hch2 : xs.Chain' (· ≤ ·) := by
        refine hch.imp ?_
        intro a b hab
        have hge := not_lt.mp hab
        linarith
      have hpw : xs.Pairwise (· ≤ ·) := List.chain'_iff_pairwise.mp hch2
      unfold quantileGridQ at hg
      have hlg : (linspaceGrid (1/1000 : ℚ) (999/1000) 200).length = 200 :=
        linspaceGrid_length _ _ _
      have hxslen : xs.length = 200 := by rw [mapME_ok_length hg, hlg]
      have hi200 : i < 200 := lt_trans hij hj
      have e1 := mapME_ok_get hg i (by rw [hlg]; exact hi200)
        (by rw [hxslen]; exact hi200)
      have e2 := mapME_ok_get hg j (by rw [hlg]; exact hj) (by rw [hxslen]; exact hj)
      rw [linspaceGrid_get] at e1 e2
      have hq1 : q1 = xs.get ⟨i, by rw [hxslen]; exact hi200⟩ := by
        have heq := h1.symm.trans e1
        injection heq
      have hq2 : q2 = xs.get ⟨j, by rw [hxslen]; exact hj⟩ := by
        have heq := h2.symm.trans e2
        injection heq
      rw [hq1, hq2]
      exact List.pairwise_iff_get.mp hpw _ _ hij

/-- Witness for the amended C4: grid-point monotonicity of the feasible
instance `stW4` between the first and the last grid point (quantile
values `-0.499` and `0.499`). -/
theorem claim_C4_witness : (-499/1000 : ℚ) ≤ (499/1000 : ℚ) :=
  claim_C4 logW expW orcW stW4 stW4r
    (fun y hy => by simp only [logW]; linarith)
    (by with_unfolding_all decide) 0 199 (by norm_num) (by norm_num)
    (-499/1000) (499/1000)
    (by with_unfolding_all decide) (by with_unfolding_all decide)

/-- Counterexample to claim C4 as stated: the instance `stC4`
(`a = [0, 0, 0, 0.999, -1]`, term 5, unbounded) is reported feasible by
the `QuantileSumNegativeIncrements` strategy (score 0 on its 200-point
grid), yet its quantile strictly decreases between `p1 = 0.9996` and
`p2 = 0.9999`: grid-based feasibility does not imply monotonicity on
all of `[0, 1]`. -/
theorem claim_C4_counterexample : ¬ C4Prop := by
  intro hclaim
  have hok1 : isOkB (mlQuantile logW expW stC4.dist (2499/2500) false) = true := by
    with_unfolding_all decide
  have hok2 : isOkB (mlQuantile logW expW stC4.dist (9999/10000) false) = true := by
    with_unfolding_all decide
  have hpair : quantPairLe logW expW stC4.dist (2499/2500) (9999/10000) = false := by
    with_unfolding_all decide
  rcases hq1 : mlQuantile logW expW stC4.dist (2499/2500) false with e1 | v1
  · rw [hq1] at hok1; exact absurd hok1 (by simp [isOkB])
  · rcases hq2 : mlQuantile logW expW stC4.dist (9999/10000) false with e2 | v2
    · rw [hq2] at hok2; exact absurd hok2 (by simp [isOkB])
    · have h := hclaim logW expW orcW .QuantileSumNegativeIncrements stC4 stC4r
        (by with_unfolding_all decide) (2499/2500) (9999/10000)
        (by norm_num) (by norm_num) (by norm_num) v1 v2 hq1 hq2
      unfold quantPairLe at hpair
      rw [hq1, hq2] at hpair
      have hfalse : xvalLe v1 v2 = false := hpair
      exact Bool.noConfusion (h.symm.trans hfalse)

/-! ### Claim C7: domain errors of the density function -/

theorem aget_ok (m : MetaLog) (n : ℕ) (h1 : 1 ≤ n) (h2 : n ≤ m.a_vector.length) :
    ∃ v, m.aget n = .ok v := by
  unfold MetaLog.aget
  have hlt : n - 1 < m.a_vector.length := by omega
  rw [List.get?_eq_get hlt]
  exact ⟨_, rfl⟩

theorem quantLoop_ok_15 (m : MetaLog) (p05 lnp acc v5 : ℚ)
    (hv5 : m.aget 5 = .ok v5) :
    ∃ q, quantLoop m p05 lnp 1 5 acc = .ok q := by
  unfold quantLoop
  rw [hv5, exceptOkBind]
  exact ⟨_, rfl⟩

theorem densLoop_ok_15 (m : MetaLog) (p05 p1p lnp acc v5 : ℚ)
    (hv5 : m.aget 5 = .ok v5) :
    ∃ d, densLoop m p05 p1p lnp 1 5 acc = .ok d := by
  unfold densLoop
  rw [hv5, exceptOkBind]
  exact ⟨_, rfl⟩

theorem unboundedQuantile_ok (L : ℚ → ℚ) (m : MetaLog) (p : ℚ)
    (h3 : 3 ≤ m.term) (h5 : m.term ≤ 5) (hlen : m.term ≤ m.a_vector.length) :
    ∃ q, unboundedQuantile L m p = .ok q := by
  obtain ⟨v1, hv1⟩ := aget_ok m 1 (by omega) (by omega)
  obtain ⟨v2, hv2⟩ := aget_ok m 2 (by omega) (by omega)
  obtain ⟨v3, hv3⟩ := aget_ok m 3 (by omega) (by omega)
  unfold unboundedQuantile
  rw [hv1, exceptOkBind, hv2, exceptOkBind, hv3, exceptOkBind]
  have ht : m.term = 3 ∨ m.term = 4 ∨ m.term = 5 := by omega
  rcases ht with ht | ht | ht
  · simp only [ht, reduceIte]
    exact ⟨_, rfl⟩
  · obtain ⟨v4, hv4⟩ := aget_ok m 4 (by omega) (by omega)
    simp only [ht, reduceIte]
    rw [hv4, exceptOkBind]
    exact ⟨_, rfl⟩
  · obtain ⟨v4, hv4⟩ := aget_ok m 4 (by omega) (by omega)
    obtain ⟨v5, hv5⟩ := aget_ok m 5 (by omega) (by omega)
    simp only [ht, reduceIte]
    rw [hv4, exceptOkBind]
    norm_num
    exact quantLoop_ok_15 m _ _ _ v5 hv5

theorem densityBase_ok (L : ℚ → ℚ) (m : MetaLog) (p : ℚ)
    (h3 : 3 ≤ m.term) (h5 : m.term ≤ 5) (hlen : m.term ≤ m.a_vector.length) :
    ∃ d, densityBase L m p = .ok d := by
  obtain ⟨v2, hv2⟩ := aget_ok m 2 (by omega) (by omega)
  obtain ⟨v3, hv3⟩ := aget_ok m 3 (by omega) (by omega)
  unfold densityBase
  rw [hv2, exceptOkBind, hv3, exceptOkBind]
  have ht : m.term = 3 ∨ m.term = 4 ∨ m.term = 5 := by omega
  rcases ht with ht | ht | ht
  · simp only [ht, reduceIte]
    exact ⟨_, rfl⟩
  · obtain ⟨v4, hv4⟩ := aget_ok m 4 (by omega) (by omega)
    simp only [ht, reduceIte]
    rw [hv4, exceptOkBind]
    exact ⟨_, rfl⟩
  · obtain ⟨v4, hv4⟩ := aget_ok m 4 (by omega) (by omega)
    obtain ⟨v5, hv5⟩ := aget_ok m 5 (by omega) (by omega)
    simp only [ht, reduceIte]
    rw [hv4, exceptOkBind]
    norm_num
    exact densLoop_ok_15 m _ _ _ _ v5 hv5

theorem densitySmallM_classify (L E : ℚ → ℚ) (m : MetaLog) (p : ℚ)
    (h3 : 3 ≤ m.term) (h5 : m.term ≤ 5) (hlen : m.term ≤ m.a_vector.length) :
    (¬ (0 ≤ p ∧ p ≤ 1) → densitySmallM L E m p false = .error .domainErr)
    ∧ (p = 0 → m.lbound = none → densitySmallM L E m p false = .error .domainErr)
    ∧ (p = 1 → m.ubound = none → densitySmallM L E m p false = .error .domainErr)
    ∧ (p = 0 → m.lbound ≠ none → densitySmallM L E m p false = .ok 0)
    ∧ (p = 1 → m.ubound ≠ none → densitySmallM L E m p false = .ok 0)
    ∧ (0 < p → p < 1 → ∃ d, densitySmallM L E m p false = .ok d) := by
  obtain ⟨d0, hd0⟩ := densityBase_ok L m p h3 h5 hlen
  refine ⟨?_, ?_, ?_, ?_, ?_, ?_⟩
  · intro h
    unfold densitySmallM
    rw [if_pos h]
  · intro hp hl
    subst hp
    unfold densitySmallM
    rw [if_neg (not_not_intro ⟨le_refl 0, by norm_num⟩)]
    rcases hu : m.ubound with _ | u
    · have hcond : m.boundedness = .unbounded ∧ ((0:ℚ) = 0 ∨ (0:ℚ) = 1) :=
        ⟨by simp [MetaLog.boundedness, hl, hu], Or.inl rfl⟩
      rw [if_pos hcond]
    · have hcond : ¬ (m.boundedness = .unbounded ∧ ((0:ℚ) = 0 ∨ (0:ℚ) = 1)) := by
        simp [MetaLog.boundedness, hl, hu]
      rw [if_neg hcond, hd0, exceptOkBind, if_neg (by decide : ¬ false = true)]
      simp only [MetaLog.boundedness, hl, hu]
      rw [if_neg (by norm_num : ¬ ((0:ℚ) < 0 ∧ (0:ℚ) < 1)),
        if_neg (by norm_num : ¬ (0:ℚ) = 1)]
  · intro hp hu
    subst hp
    unfold densitySmallM
    rw [if_neg (not_not_intro ⟨by norm_num, le_refl 1⟩)]
    rcases hl : m.lbound with _ | l
    · have hcond : m.boundedness = .unbounded ∧ ((1:ℚ) = 0 ∨ (1:ℚ) = 1) :=
        ⟨by simp [MetaLog.boundedness, hl, hu], Or.inr rfl⟩
      rw [if_pos hcond]
    · have hcond : ¬ (m.boundedness = .unbounded ∧ ((1:ℚ) = 0 ∨ (1:ℚ) = 1)) := by
        simp [MetaLog.boundedness, hl, hu]
      rw [if_neg hcond, hd0, exceptOkBind, if_neg (by decide : ¬ false = true)]
      simp only [MetaLog.boundedness, hl, hu]
      rw [if_neg (by norm_num : ¬ ((0:ℚ) < 1 ∧ (1:ℚ) < 1)),
        if_neg (by norm_num : ¬ (1:ℚ) = 0)]
  · intro hp hl
    subst hp
    rcases hlb : m.lbound with _ | l
    · exact absurd hlb hl
    · unfold densitySmallM
      rw [if_neg (not_not_intro ⟨le_refl 0, by norm_num⟩)]
      have hcond : ¬ (m.boundedness = .unbounded ∧ ((0:ℚ) = 0 ∨ (0:ℚ) = 1)) := by
        rcases hu : m.ubound with _ | u <;> simp [MetaLog.boundedness, hlb, hu]
      rw [if_neg hcond, hd0, exceptOkBind, if_neg (by decide : ¬ false = true)]
      rcases hu : m.ubound with _ | u <;> simp only [MetaLog.boundedness, hlb, hu] <;>
        simp
  · intro hp hu
    subst hp
    rcases hub : m.ubound with _ | u
    · exact absurd hub hu
    · unfold densitySmallM
      rw [if_neg (not_not_intro ⟨by norm_num, le_refl 1⟩)]
      have hcond : ¬ (m.boundedness = .unbounded ∧ ((1:ℚ) = 0 ∨ (1:ℚ) = 1)) := by
        rcases hl : m.lbound with _ | l <;> simp [MetaLog.boundedness, hl, hub]
      rw [if_neg hcond, hd0, exceptOkBind, if_neg (by decide : ¬ false = true)]
      rcases hl : m.lbound with _ | l <;> simp only [MetaLog.boundedness, hl, hub] <;>
        simp
  · intro hp0 hp1
    obtain ⟨q0, hq0⟩ := unboundedQuantile_ok L m p h3 h5 hlen
    unfold densitySmallM
    rw [if_neg (not_not_intro ⟨le_of_lt hp0, le_of_lt hp1⟩)]
    have hno : ¬ (m.boundedness = .unbounded ∧ (p = 0 ∨ p = 1)) := by
      rintro ⟨-, h0 | h1⟩
      · exact absurd h0 (ne_of_gt hp0)
      · exact absurd h1 (ne_of_lt hp1)
    rw [if_neg hno, hd0, exceptOkBind, if_neg (by decide : ¬ false = true)]
    rcases hl : m.lbound with _ | l <;> rcases hu : m.ubound with _ | u <;>
      simp only [MetaLog.boundedness, hl, hu]
    · exact ⟨_, rfl⟩
    · rw [if_pos ⟨hp0, hp1⟩, hq0, exceptOkBind]
      exact ⟨_, rfl⟩
    · rw [if_pos ⟨hp0, hp1⟩, hq0, exceptOkBind]
      exact ⟨_, rfl⟩
    · rw [if_pos ⟨hp0, hp1⟩, hq0, exceptOkBind]
      exact ⟨_, rfl⟩

/-- Claim C7 (amended): only for a distribution whose term count and
a-vector are consistent (`3 ≤ term ≤ 5`, `term ≤ len(a_vector)`, so
that the series evaluation itself is functional) does `densitySmallM`
on a scalar raise exactly when the probability argument lies outside
`[0, 1]` or equals an endpoint (0 or 1) on a side with no bound; every
raise is then the domain-error `ValueError`, and at an endpoint on a
side that is bounded the function instead returns exactly 0.  Without
the term restriction the claim is false: `term = 2` raises `KeyError`
and `term ≥ 6` raises `TypeError` at interior probabilities (see the
counterexample). -/
theorem claim_C7 (L E : ℚ → ℚ) (m : MetaLog) (p : ℚ)
    (hterm : 3 ≤ m.term ∧ m.term ≤ 5) (hlen : m.term ≤ m.a_vector.length) :
    ((∃ e, densitySmallM L E m p false = .error e) ↔
        (¬ (0 ≤ p ∧ p ≤ 1) ∨ (p = 0 ∧ m.lbound = none) ∨ (p = 1 ∧ m.ubound = none)))
    ∧ (∀ e, densitySmallM L E m p false = .error e → e = .domainErr)
    ∧ (p = 0 → m.lbound ≠ none → densitySmallM L E m p false = .ok 0)
    ∧ (p = 1 → m.ubound ≠ none → densitySmallM L E m p false = .ok 0) := by
  obtain ⟨h3, h5⟩ := hterm
  obtain ⟨f1, f2, f3, f4, f5, f6⟩ := densitySmallM_classify L E m p h3 h5 hlen
  have herr : ∀ e, densitySmallM L E m p false = .error e →
      ((¬ (0 ≤ p ∧ p ≤ 1) ∨ (p = 0 ∧ m.lbound = none) ∨ (p = 1 ∧ m.ubound = none))
        ∧ e = .domainErr) := by
    intro e he
    by_cases hin : 0 ≤ p ∧ p ≤ 1
    · rcases eq_or_lt_of_le hin.1 with hp0e | hp0l
      · have hp : p = 0 := hp0e.symm
        rcases hlb : m.lbound with _ | l
        · have h2 := f2 hp hlb
          have hinj := he.symm.trans h2
          injection hinj with hinj2
          exact ⟨Or.inr (Or.inl ⟨hp, rfl⟩), hinj2⟩
        · have h4 := f4 hp (by rw [hlb]; simp)
          rw [h4] at he
          exact absurd he (by simp)
      · rcases eq_or_lt_of_le hin.2 with hp1e | hp1l
        · rcases hub : m.ubound with _ | u
          · have h3e := f3 hp1e hub
            have hinj := he.symm.trans h3e
            injection hinj with hinj2
            exact ⟨Or.inr (Or.inr ⟨hp1e, rfl⟩), hinj2⟩
          · have h5e := f5 hp1e (by rw [hub]; simp)
            rw [h5e] at he
            exact absurd he (by simp)
        · obtain ⟨d, hd⟩ := f6 hp0l hp1l
          rw [hd] at he
          exact absurd he (by simp)
    · have h1e := f1 hin
      have hinj := he.symm.trans h1e
      injection hinj with hinj2
      exact ⟨Or.inl hin, hinj2⟩
  refine ⟨⟨fun hex => ?_, fun hcond => ?_⟩, fun e he => (herr e he).2, f4, f5⟩
  · obtain ⟨e, he⟩ := hex
    exact (herr e he).1
  · rcases hcond with h | ⟨hp, hl⟩ | ⟨hp, hu⟩
    · exact ⟨.domainErr, f1 h⟩
    · exact ⟨.domainErr, f2 hp hl⟩
    · exact ⟨.domainErr, f3 hp hu⟩

/-- Witness for C7 at the lower-bounded 3-term instance `mC7`
(`a = [0, 1, 0]`, `lbound = 0`) and the boundary probability `p = 0`:
the density is exactly 0 (the bounded side returns 0 instead of
raising). -/
theorem claim_C7_witness : densitySmallM logW expW mC7 0 false = .ok 0 :=
  (claim_C7 logW expW mC7 0 ⟨by decide, by decide⟩ (by decide)).2.2.1 rfl (by decide)

/-- Counterexample to claim C7 as stated: the claim carries no term
restriction, but at `term = 2` (`a = [0, 1]`, unbounded) the density
raises `KeyError` at the interior probability `p = 1/2` — the third
series element is computed unconditionally (line 387) — so the density
signals an error where the claim's condition says it must not (and the
error is not the domain-error `ValueError`). -/
theorem claim_C7_counterexample : ¬ C7Prop := by
  intro hclaim
  have h := (hclaim logW expW ⟨[0, 1], 2, none, none⟩ (1/2)).1.mp
    ⟨.keyErr, by with_unfolding_all rfl⟩
  rcases h with h | ⟨h0, -⟩ | ⟨h1, -⟩
  · exact h ⟨by norm_num, by norm_num⟩
  · norm_num at h0
  · norm_num at h1
